import Mathlib

/-!
# Audio unit: ring-buffer data flow between hardware callbacks, the AEC worker and the consumer

A shallow embedding of `src/unit.h` and `src/unit-common.cc`.

* Samples (`int16_t`) and filter words (`int32_t`) are integers; the code moves them
  around and never does arithmetic on them.
* Counts (`size_t`, `ring_buffer_size_t`) are natural numbers; the one place where
  unsigned wrap-around matters (`GetChannelCount(..) - 1`) is handled in `lastChannel`,
  which agrees with the index taken modulo `2^64` (`lastChannel_wraps`).
* `ASSERT` aborts the process: an `Outcome` records whether a call returned or aborted,
  together with the state reached at that point.
* The echo canceller, the noise suppressor and the QMF filter bank are external
  collaborators: they are a parameter (`Dsp`) of the embedding.
-/

namespace audio

/-! ## Constants of `unit.h` -/

/-- Constant `Unit::kSampleRate`. -/
abbrev kSampleRate : Nat := 16000

/-- Constant `Unit::kChunkSize`: samples per frame. -/
abbrev kChunkSize : Nat := 160

/-- Constant `Unit::kChannelCount`: length of `channels_`. -/
abbrev kChannelCount : Nat := 2

/-- Constant `Channel::kBufferCapacity`, in samples. -/
abbrev kBufferCapacity : Nat := 16 * 1024

/-- A fixed-size C array of `n` integers, such as `int16_t buf[160]` or `int32_t a_lo[6]`. -/
abbrev Samples (n : Nat) := { l : List Int // l.length = n }

/-- The all-zero array (`memset(.., 0, ..)`). -/
def Samples.zero (n : Nat) : Samples n := ⟨List.replicate n 0, by simp⟩

/-! ## Ring buffer -/

/-- Modelled from the spec: the PortAudio ring buffer (`pa_ringbuffer.h`) is not among the
sources. Section 4.1 gives it a fixed capacity and FIFO contents; `data` holds the unread
samples, oldest first. -/
structure PaUtilRingBuffer where
  capacity : Nat
  data : List Int
deriving DecidableEq, Repr

/-- Modelled from the spec: `PaUtil_InitializeRingBuffer`, an empty buffer of `elementCount`
samples. -/
def PaUtil_InitializeRingBuffer (elementCount : Nat) : PaUtilRingBuffer :=
  { capacity := elementCount, data := [] }

/-- Modelled from the spec: `available_for_read()`. -/
def PaUtil_GetRingBufferReadAvailable (rb : PaUtilRingBuffer) : Nat :=
  rb.data.length

/-- Modelled from the spec: `available_for_write()`, so that read + write = capacity. -/
def PaUtil_GetRingBufferWriteAvailable (rb : PaUtilRingBuffer) : Nat :=
  rb.capacity - rb.data.length

/-- Modelled from the spec: `write(samples, count) -> accepted` appends the first
`min(count, free_space)` samples of `src`, never overwrites unread data, and returns the
number accepted. -/
def PaUtil_WriteRingBuffer (rb : PaUtilRingBuffer) (src : List Int) (count : Nat) :
    PaUtilRingBuffer × Nat :=
  let n := min count (PaUtil_GetRingBufferWriteAvailable rb)
  ({ rb with data := rb.data ++ src.take n }, n)

/-- Modelled from the spec: `read(count) -> (samples, count_read)` removes the oldest
`min(count, available)` samples. The second component is the list of samples transferred
to the caller; its length is the returned count. -/
def PaUtil_ReadRingBuffer (rb : PaUtilRingBuffer) (count : Nat) :
    PaUtilRingBuffer × List Int :=
  let n := min count (PaUtil_GetRingBufferReadAvailable rb)
  ({ rb with data := rb.data.drop n }, rb.data.take n)

/-- Storing the samples `src` at the start of the caller's array `dst` (the copy done by a
ring buffer read into its destination pointer). -/
def copyInto (dst src : List Int) : List Int :=
  src.take dst.length ++ dst.drop src.length

/-! ## External collaborators -/

/-- The DSP library calls made by the unit, over an echo-canceller state `A` and a noise
suppressor state `Ns`. A call that returns a status returns it first; arrays written in
place are returned as new values. -/
structure Dsp (A Ns : Type) where
  WebRtcAec_Create : Int × A
  WebRtcAec_Init : A → Nat → Int → Int × A
  WebRtcAec_BufferFarend : A → Samples 160 → Int × A
  WebRtcAec_Process : A → Samples 80 → Samples 80 → Int → Int →
    Int × A × Samples 80 × Samples 80
  WebRtcNs_Create : Int × Ns
  WebRtcNs_Init : Ns → Nat → Int × Ns
  WebRtcNs_Process : Ns → Samples 80 → Samples 80 → Int × Ns × Samples 80 × Samples 80
  WebRtcSpl_AnalysisQMF : Samples 160 → Samples 6 → Samples 6 →
    Samples 80 × Samples 80 × Samples 6 × Samples 6
  WebRtcSpl_SynthesisQMF : Samples 80 → Samples 80 → Samples 6 → Samples 6 →
    Samples 160 × Samples 6 × Samples 6

/-- Enumeration `Unit::Side`. -/
inductive Side where
  | kInput
  | kOutput
deriving DecidableEq, Repr

/-- The pure virtuals of `Unit` answered by the platform subclass. `GetHWSampleRate` is
the value after `static_cast<int32_t>`. -/
structure Hardware where
  GetChannelCount : Side → Nat
  GetHWSampleRate : Side → Int

/-! ## Outcomes -/

/-- Result of a call: it returned (`ok`), an `ASSERT` failed and the process aborted
(`abort`), or it indexed `channels_` out of range (`undefined`). Each carries the state
reached. -/
inductive Outcome (σ : Type) where
  | ok (s : σ)
  | abort (msg : String) (s : σ)
  | undefined (s : σ)
deriving DecidableEq, Repr

/-- The state carried by an outcome. -/
def Outcome.state {σ : Type} : Outcome σ → σ
  | .ok s => s
  | .abort _ s => s
  | .undefined s => s

/-- Sequencing: the next statement runs only if the previous one returned. -/
def Outcome.bind {σ : Type} (r : Outcome σ) (f : σ → Outcome σ) : Outcome σ :=
  match r with
  | .ok s => f s
  | .abort m s => .abort m s
  | .undefined s => .undefined s

/-- Applying a state change to whatever state was reached. -/
def Outcome.map {σ τ : Type} (f : σ → τ) : Outcome σ → Outcome τ
  | .ok s => .ok (f s)
  | .abort m s => .abort m (f s)
  | .undefined s => .undefined (f s)

/-! ## Channel -/

/-- Class `Channel`: `aec_.in`, `aec_.out`, `aec_.handle`, `io_.in`, `io_.out`, the four
`filters_` arrays and `ns_`. -/
structure Channel (A Ns : Type) where
  aec_in : PaUtilRingBuffer
  aec_out : PaUtilRingBuffer
  aec_handle : A
  io_in : PaUtilRingBuffer
  io_out : PaUtilRingBuffer
  a_lo : Samples 6
  a_hi : Samples 6
  s_lo : Samples 6
  s_hi : Samples 6
  ns_ : Ns

variable {A Ns : Type}

/-- Constructor `Channel::Channel` followed by `Channel::Init`: zeroed filters, four empty rings of
`kBufferCapacity` samples, a created and initialised AEC and NS. -/
def Channel.Init (dsp : Dsp A Ns) (hw : Hardware) : Except String (Channel A Ns) :=
  let ring := PaUtil_InitializeRingBuffer kBufferCapacity
  let created := dsp.WebRtcAec_Create
  if created.1 ≠ 0 then .error "Failed to create AEC" else
  let inited := dsp.WebRtcAec_Init created.2 kSampleRate (hw.GetHWSampleRate Side.kOutput)
  if inited.1 ≠ 0 then .error "Failed to initialize AEC" else
  let nsCreated := dsp.WebRtcNs_Create
  if nsCreated.1 ≠ 0 then .error "Failed to create NS" else
  let nsInited := dsp.WebRtcNs_Init nsCreated.2 (kSampleRate / 2)
  if nsInited.1 ≠ 0 then .error "Failed to init NS" else
  .ok { aec_in := ring, aec_out := ring, aec_handle := inited.2,
        io_in := ring, io_out := ring,
        a_lo := Samples.zero 6, a_hi := Samples.zero 6,
        s_lo := Samples.zero 6, s_hi := Samples.zero 6,
        ns_ := nsInited.2 }

/-- First half of `Channel::Cycle`: feed one playback frame to the AEC far end. -/
def Channel.CycleFarend (dsp : Dsp A Ns) (c : Channel A Ns) (avail_out : Nat) :
    Outcome (Channel A Ns) :=
  if avail_out ≥ kChunkSize then
    let r := PaUtil_ReadRingBuffer c.aec_out kChunkSize
    let c1 := { c with aec_out := r.1 }
    if h : r.2.length = 160 then
      let f := dsp.WebRtcAec_BufferFarend c1.aec_handle ⟨r.2, h⟩
      let c2 := { c1 with aec_handle := f.2 }
      if f.1 = 0 then .ok c2 else .abort "Failed to queue AEC far end" c2
    else .abort "Read less than expected" c1
  else .ok c

/-- Second half of `Channel::Cycle`: read one capture frame, split, AEC, NS, join, write
to `io_.in`. -/
def Channel.CycleCapture (dsp : Dsp A Ns) (c : Channel A Ns) (avail_in : Nat) :
    Outcome (Channel A Ns) :=
  if avail_in ≥ 160 then
    let r := PaUtil_ReadRingBuffer c.aec_in 160
    let c1 := { c with aec_in := r.1 }
    if h : r.2.length = 160 then
      let q := dsp.WebRtcSpl_AnalysisQMF ⟨r.2, h⟩ c1.a_lo c1.a_hi
      let c2 := { c1 with a_lo := q.2.2.1, a_hi := q.2.2.2 }
      let e := dsp.WebRtcAec_Process c2.aec_handle q.1 q.2.1 0 0
      let c3 := { c2 with aec_handle := e.2.1 }
      if e.1 = 0 then
        let n := dsp.WebRtcNs_Process c3.ns_ e.2.2.1 e.2.2.2
        let c4 := { c3 with ns_ := n.2.1 }
        if n.1 = 0 then
          let j := dsp.WebRtcSpl_SynthesisQMF n.2.2.1 n.2.2.2 c4.s_lo c4.s_hi
          let c5 := { c4 with s_lo := j.2.1, s_hi := j.2.2 }
          .ok { c5 with io_in := (PaUtil_WriteRingBuffer c5.io_in j.1.val 160).1 }
        else .abort "Failed to apply NS" c4
      else .abort "Failed to queue AEC near end" c3
    else .abort "Read less than expected" c1
  else .ok c

/-- Method `Channel::Cycle(avail_in, avail_out)`: the far-end half, then the capture half. -/
def Channel.Cycle (dsp : Dsp A Ns) (c : Channel A Ns) (avail_in avail_out : Nat) :
    Outcome (Channel A Ns) :=
  (c.CycleFarend dsp avail_out).bind (fun c1 => c1.CycleCapture dsp avail_in)

/-! ## Unit -/

/-- Class `Unit`: the channel array, the flags, the count of the semaphore `aec_sem_` and
whether `aec_async_` has been signalled. -/
structure Unit (A Ns : Type) where
  channels_ : Fin 2 → Channel A Ns
  running_ : Bool
  destroying_ : Bool
  aec_sem_ : Nat
  aec_async_ : Bool

/-- Replace one element of `channels_`. -/
def Unit.setChannel (u : Unit A Ns) (i : Fin 2) (c : Channel A Ns) : Unit A Ns :=
  { u with channels_ := Function.update u.channels_ i c }

/-- Constructor `Unit::Unit` followed by `Unit::Init`. -/
def Unit.Init (dsp : Dsp A Ns) (hw : Hardware) : Except String (Unit A Ns) :=
  match Channel.Init dsp hw, Channel.Init dsp hw with
  | .ok c0, .ok c1 =>
    .ok { channels_ := fun i => if i = 0 then c0 else c1,
          running_ := false, destroying_ := false, aec_sem_ := 0, aec_async_ := false }
  | .error e, _ => .error e
  | _, .error e => .error e

/-- Method `Unit::CommitInput`: the return value of the ring write is ignored. -/
def Unit.CommitInput (u : Unit A Ns) (channel : Fin 2) (inp : List Int) (size : Nat) :
    Unit A Ns :=
  let chan := u.channels_ channel
  u.setChannel channel { chan with aec_in := (PaUtil_WriteRingBuffer chan.aec_in inp size).1 }

/-- Method `Unit::FlushInput`: `uv_sem_post`. -/
def Unit.FlushInput (u : Unit A Ns) : Unit A Ns :=
  { u with aec_sem_ := u.aec_sem_ + 1 }

/-- The loop `for (i = avail; i < size; i++) out[i] = 0`, with `n` iterations left. -/
def zeroFill (out : List Int) (i : Nat) : Nat → List Int
  | 0 => out
  | n + 1 => zeroFill (out.set i 0) (i + 1) n

/-- Method `Unit::RenderOutput`: the new state and the contents of the caller's array `out`. -/
def Unit.RenderOutput (u : Unit A Ns) (channel : Fin 2) (out : List Int) (size : Nat) :
    Unit A Ns × List Int :=
  let chan := u.channels_ channel
  let r := PaUtil_ReadRingBuffer chan.io_out size
  let avail := r.2.length
  let out1 := copyInto out r.2
  let out2 := zeroFill out1 avail (size - avail)
  let chan1 := { chan with io_out := r.1 }
  (u.setChannel channel
      { chan1 with aec_out := (PaUtil_WriteRingBuffer chan1.aec_out out2 size).1 },
   out2)

/-- The element `&channels_[count - 1]` of the two-element array, with the index computed
in `size_t` arithmetic: a count of 0 wraps around to the largest index and a count above 2
gives an index of at least 2, both outside the array (`none`). -/
def lastChannel : Nat → Option (Fin 2)
  | 0 => none
  | 1 => some 0
  | 2 => some 1
  | _ + 3 => none

/-- The two locals `(avail_in, avail_out)` computed at the top of `Unit::DoAEC`. -/
def Unit.DoAEC_avail (hw : Hardware) (u : Unit A Ns) : Option (Nat × Nat) :=
  match lastChannel (hw.GetChannelCount Side.kInput),
        lastChannel (hw.GetChannelCount Side.kOutput) with
  | some last_in, some last_out =>
    some (PaUtil_GetRingBufferReadAvailable (u.channels_ last_in).aec_out,
          PaUtil_GetRingBufferReadAvailable (u.channels_ last_out).aec_out)
  | _, _ => none

/-- One iteration `channels_[i].Cycle(avail_in, avail_out)` of the loop of `DoAEC`. -/
def Unit.cycleChannel (dsp : Dsp A Ns) (avail_in avail_out : Nat) (i : Fin 2)
    (u : Unit A Ns) : Outcome (Unit A Ns) :=
  ((u.channels_ i).Cycle dsp avail_in avail_out).map (u.setChannel i)

/-- The loop `for (i = 0; i < kChannelCount; i++)` of `DoAEC` over the remaining indices. -/
def Unit.cycleChannels (dsp : Dsp A Ns) (avail_in avail_out : Nat) :
    List (Fin 2) → Unit A Ns → Outcome (Unit A Ns)
  | [], u => .ok u
  | i :: rest, u =>
    (u.cycleChannel dsp avail_in avail_out i).bind (Unit.cycleChannels dsp avail_in avail_out rest)

/-- Method `Unit::DoAEC`: one worker pass, ending with `uv_async_send`. -/
def Unit.DoAEC (dsp : Dsp A Ns) (hw : Hardware) (u : Unit A Ns) : Outcome (Unit A Ns) :=
  match u.DoAEC_avail hw with
  | some (avail_in, avail_out) =>
    (Unit.cycleChannels dsp avail_in avail_out [0, 1] u).bind
      (fun u1 => .ok { u1 with aec_async_ := true })
  | none => .undefined u

/-- One `MakeCallback(.., "oninput", ..)`: the channel index and the samples of `buf`. -/
structure Delivery where
  channel : Nat
  samples : List Int
deriving DecidableEq, Repr

/-- Body of the inner loop of `Unit::AsyncCb` for channel `i`. -/
def AsyncCb_body (i : Nat) (s : Unit A Ns × List Delivery) :
    Outcome (Unit A Ns × List Delivery) :=
  if h : i < 2 then
    let chan := s.1.channels_ ⟨i, h⟩
    let r := PaUtil_ReadRingBuffer chan.io_in kChunkSize
    let u1 := s.1.setChannel ⟨i, h⟩ { chan with io_in := r.1 }
    if r.2.length = kChunkSize then .ok (u1, s.2 ++ [{ channel := i, samples := r.2 }])
    else .abort "Read less than expected" (u1, s.2)
  else .undefined s

/-- The inner loop `for (i = 0; i < channels; i++)` with `k` iterations left. -/
def AsyncCb_for (channels : Nat) :
    Nat → Unit A Ns × List Delivery → Outcome (Unit A Ns × List Delivery)
  | 0, s => .ok s
  | k + 1, s => (AsyncCb_body (channels - (k + 1)) s).bind (AsyncCb_for channels k)

/-- The outer loop `while (PaUtil_GetRingBufferReadAvailable(&last->io_.in) > 0)`, run for
at most `fuel` rounds. -/
def AsyncCb_while (channels : Nat) (last : Fin 2) :
    Nat → Unit A Ns × List Delivery → Outcome (Unit A Ns × List Delivery)
  | 0, s => .ok s
  | fuel + 1, s =>
    if PaUtil_GetRingBufferReadAvailable (s.1.channels_ last).io_in > 0 then
      (AsyncCb_for channels channels s).bind (AsyncCb_while channels last fuel)
    else .ok s

/-- Method `Unit::AsyncCb`: the final state and the deliveries made, in order. Every completed
round removes a frame from the last channel, so the number of samples readable there on
entry bounds the number of rounds. -/
def Unit.AsyncCb (hw : Hardware) (u : Unit A Ns) (status : Int) :
    Outcome (Unit A Ns × List Delivery) :=
  if status ≠ 0 then .ok (u, []) else
  let channels := hw.GetChannelCount Side.kInput
  match lastChannel channels with
  | some last =>
    AsyncCb_while channels last
      (PaUtil_GetRingBufferReadAvailable (u.channels_ last).io_in) (u, [])
  | none => .undefined (u, [])

/-! ## Test doubles for the collaborators -/

/-- A pass-through DSP that always reports success: the AEC state is the list of far-end
frames buffered so far, the NS state counts processed frames, the analysis filter splits a
frame into its first and second half and the synthesis filter joins them again. On
silence it yields silence. -/
def stubDsp : Dsp (List (List Int)) Nat where
  WebRtcAec_Create := (0, [])
  WebRtcAec_Init := fun h _ _ => (0, h)
  WebRtcAec_BufferFarend := fun h f => (0, h ++ [f.val])
  WebRtcAec_Process := fun h lo hi _ _ => (0, h, lo, hi)
  WebRtcNs_Create := (0, 0)
  WebRtcNs_Init := fun n _ => (0, n)
  WebRtcNs_Process := fun n lo hi => (0, n + 1, lo, hi)
  WebRtcSpl_AnalysisQMF := fun f a_lo a_hi =>
    (⟨f.val.take 80, by simp [f.property]⟩, ⟨f.val.drop 80, by simp [f.property]⟩, a_lo, a_hi)
  WebRtcSpl_SynthesisQMF := fun lo hi s_lo s_hi =>
    (⟨lo.val ++ hi.val, by simp [lo.property, hi.property]⟩, s_lo, s_hi)

/-- Hardware reporting `n` input and `m` output channels at 16 kHz. -/
def hwChannels (n m : Nat) : Hardware where
  GetChannelCount := fun side => match side with
    | Side.kInput => n
    | Side.kOutput => m
  GetHWSampleRate := fun _ => 16000

/-- All collaborator calls that return a status report success. -/
def Dsp.ReportsSuccess (dsp : Dsp A Ns) : Prop :=
  (∀ h f, (dsp.WebRtcAec_BufferFarend h f).1 = 0) ∧
  (∀ h lo hi a b, (dsp.WebRtcAec_Process h lo hi a b).1 = 0) ∧
  (∀ n lo hi, (dsp.WebRtcNs_Process n lo hi).1 = 0)

/-- The frame written to `io_.in` for the capture frame `f` by a channel in state `c`:
analysis split, echo canceller, noise suppressor, synthesis join, in that order. -/
def Channel.processed (dsp : Dsp A Ns) (c : Channel A Ns) (f : Samples 160) : Samples 160 :=
  let q := dsp.WebRtcSpl_AnalysisQMF f c.a_lo c.a_hi
  let e := dsp.WebRtcAec_Process c.aec_handle q.1 q.2.1 0 0
  let n := dsp.WebRtcNs_Process c.ns_ e.2.2.1 e.2.2.2
  (dsp.WebRtcSpl_SynthesisQMF n.2.2.1 n.2.2.2 c.s_lo c.s_hi).1

/-- The oldest frame of a ring that holds at least 160 samples. -/
def PaUtilRingBuffer.front (rb : PaUtilRingBuffer) (h : 160 ≤ rb.data.length) : Samples 160 :=
  ⟨rb.data.take 160, by rw [List.length_take]; omega⟩

/-- The ring without its oldest 160 samples. -/
def PaUtilRingBuffer.popFrame (rb : PaUtilRingBuffer) : PaUtilRingBuffer :=
  { rb with data := rb.data.drop 160 }

/-- Every stage hands its input through: the canceller and the suppressor return the
sub-bands unchanged and the synthesis filter undoes the analysis filter. -/
def Dsp.IsPassThrough (dsp : Dsp A Ns) : Prop :=
  (∀ h lo hi a b, (dsp.WebRtcAec_Process h lo hi a b).2.2 = (lo, hi)) ∧
  (∀ n lo hi, (dsp.WebRtcNs_Process n lo hi).2.2 = (lo, hi)) ∧
  (∀ f a_lo a_hi s_lo s_hi,
    (dsp.WebRtcSpl_SynthesisQMF (dsp.WebRtcSpl_AnalysisQMF f a_lo a_hi).1
      (dsp.WebRtcSpl_AnalysisQMF f a_lo a_hi).2.1 s_lo s_hi).1 = f)

/-- The end-to-end scenario: initialise, commit 160 zero samples on channel 0, flush, run
one worker pass, then the completion callback. `none` when initialisation fails. -/
def endToEnd (dsp : Dsp A Ns) (hw : Hardware) :
    Option (Outcome (Unit A Ns × List Delivery)) :=
  match Unit.Init dsp hw with
  | .error _ => none
  | .ok u0 =>
    match ((u0.CommitInput 0 (List.replicate 160 0) 160).FlushInput).DoAEC dsp hw with
    | .ok u1 => some (u1.AsyncCb hw 0)
    | .abort m u1 => some (.abort m (u1, []))
    | .undefined u1 => some (.undefined (u1, []))

/-- The channel with the oldest `m` samples removed from `io_.in`. -/
def Channel.dropInput (c : Channel A Ns) (m : Nat) : Channel A Ns :=
  { c with io_in := { c.io_in with data := c.io_in.data.drop m } }

/-- The unit with the oldest `j` frames removed from `io_.in` of every channel below `n`;
the other channels and all other fields are those of `u`. -/
def Unit.dropFrames (u : Unit A Ns) (n j : Nat) : Unit A Ns :=
  { u with channels_ := fun i =>
      if i.val < n then (u.channels_ i).dropInput (160 * j) else u.channels_ i }

/-- The deliveries of round `j`: for each channel `i < n` in ascending order, the `j`-th
unread frame of its `io_.in`. -/
def roundDeliveries (u : Unit A Ns) (n j : Nat) : List Delivery :=
  (List.range n).map (fun i =>
    { channel := i,
      samples := ((u.channels_ (Fin.ofNat i)).io_in.data.drop (160 * j)).take 160 })

/-- The deliveries of `k` rounds, round 0 first. -/
def expectedDeliveries (u : Unit A Ns) (n k : Nat) : List Delivery :=
  ((List.range k).map (roundDeliveries u n)).flatten

/-! ## Concrete states used by the examples -/

/-- A channel as `Channel::Init` leaves it with the pass-through DSP. -/
def idleChannel : Channel (List (List Int)) Nat :=
  { aec_in := PaUtil_InitializeRingBuffer kBufferCapacity,
    aec_out := PaUtil_InitializeRingBuffer kBufferCapacity,
    aec_handle := [],
    io_in := PaUtil_InitializeRingBuffer kBufferCapacity,
    io_out := PaUtil_InitializeRingBuffer kBufferCapacity,
    a_lo := Samples.zero 6, a_hi := Samples.zero 6,
    s_lo := Samples.zero 6, s_hi := Samples.zero 6,
    ns_ := 0 }

/-- A unit as `Unit::Init` leaves it with the pass-through DSP. -/
def idleUnit : Unit (List (List Int)) Nat :=
  { channels_ := fun i => if i = 0 then idleChannel else idleChannel,
    running_ := false, destroying_ := false, aec_sem_ := 0, aec_async_ := false }

/-- A ring of `kBufferCapacity` samples holding `xs`. -/
def ringOf (xs : List Int) : PaUtilRingBuffer :=
  { capacity := kBufferCapacity, data := xs }

/-- A unit whose channel 0 has a full playback-reference ring (16384 unread samples). -/
def fullPlaybackUnit : Unit (List (List Int)) Nat :=
  idleUnit.setChannel 0 { idleChannel with aec_out := ringOf (List.replicate 16384 0) }

/-- A channel holding one playback frame (160 samples of value 3) and nothing else. -/
def playbackChannel : Channel (List (List Int)) Nat :=
  { idleChannel with aec_out := ringOf (List.replicate 160 3) }

/-- A channel holding one capture frame (160 samples of value 4) and no playback data. -/
def captureChannel : Channel (List (List Int)) Nat :=
  { idleChannel with aec_in := ringOf (List.replicate 160 4) }

/-- A channel holding two capture frames and two playback frames of silence. -/
def backlogChannel : Channel (List (List Int)) Nat :=
  { idleChannel with aec_in := ringOf (List.replicate 320 0),
                     aec_out := ringOf (List.replicate 320 0) }

/-- A unit both of whose channels hold two capture and two playback frames. -/
def backlogUnit : Unit (List (List Int)) Nat :=
  { idleUnit with channels_ := fun _ => backlogChannel }

/-- The idle unit after `CommitInput(0, 160 zero samples)`. -/
def committedUnit : Unit (List (List Int)) Nat :=
  idleUnit.CommitInput 0 (List.replicate 160 0) 160

/-- A unit whose two channels each hold one processed frame: ones on channel 0, twos on
channel 1. -/
def stereoUnit : Unit (List (List Int)) Nat :=
  { idleUnit with channels_ := fun i =>
      if i = 0 then { idleChannel with io_in := ringOf (List.replicate 160 1) }
      else { idleChannel with io_in := ringOf (List.replicate 160 2) } }

/-- A unit whose channel 0 holds 64 processed samples, less than a frame. -/
def shortUnit : Unit (List (List Int)) Nat :=
  idleUnit.setChannel 0 { idleChannel with io_in := ringOf (List.replicate 64 0) }

/-- A unit whose channel 0 has a full `io_.in` ring: 16384 = 102 * 160 + 64 samples. -/
def fullInputUnit : Unit (List (List Int)) Nat :=
  idleUnit.setChannel 0 { idleChannel with io_in := ringOf (List.replicate 16384 0) }

/-! ## Ring buffer and array lemmas -/

section Lemmas

variable {A Ns : Type}

theorem zeroFill_length (out : List Int) (i n : Nat) :
    (zeroFill out i n).length = out.length := by
  induction n generalizing out i with
  | zero => rfl
  | succ n ih => simp [zeroFill, ih]

theorem zeroFill_getElem? (out : List Int) (i n j : Nat) :
    (zeroFill out i n)[j]? =
      if i ≤ j ∧ j < i + n ∧ j < out.length then some 0 else out[j]? := by
  induction n generalizing out i with
  | zero =>
    have : ¬ (i ≤ j ∧ j < i + 0 ∧ j < out.length) := by omega
    rw [if_neg this]
    rfl
  | succ n ih =>
    simp only [zeroFill, ih, List.length_set, List.getElem?_set]
    by_cases h1 : i = j
    · subst h1
      by_cases h2 : i < out.length
      · have : ¬ (i + 1 ≤ i ∧ i < i + 1 + n ∧ i < out.length) := by omega
        have h3 : i ≤ i ∧ i < i + (n + 1) ∧ i < out.length := ⟨le_refl _, by omega, h2⟩
        simp [this, h3, h2]
      · have : ¬ (i + 1 ≤ i ∧ i < i + 1 + n ∧ i < out.length) := by omega
        have h3 : ¬ (i ≤ i ∧ i < i + (n + 1) ∧ i < out.length) := by omega
        have h4 : out[i]? = none := List.getElem?_eq_none (by omega)
        simp [this, h3, h2, h4]
    · by_cases h2 : i + 1 ≤ j ∧ j < i + 1 + n ∧ j < out.length
      · have h3 : i ≤ j ∧ j < i + (n + 1) ∧ j < out.length := by omega
        simp [h2, h3]
      · have h3 : ¬ (i ≤ j ∧ j < i + (n + 1) ∧ j < out.length) := by omega
        simp [h1, h2, h3]

/-- Closed form of the array left by a read of `src` followed by the zero-fill up to `size`. -/
theorem zeroFill_copyInto (out src : List Int) (size : Nat)
    (h1 : src.length ≤ size) (h2 : size ≤ out.length) :
    zeroFill (copyInto out src) src.length (size - src.length) =
      src ++ List.replicate (size - src.length) 0 ++ out.drop size := by
  apply List.ext_getElem?
  intro j
  have hlen : (copyInto out src).length = out.length := by
    simp [copyInto]
    omega
  have htake : src.take out.length = src := List.take_of_length_le (by omega)
  rw [zeroFill_getElem?, hlen]
  by_cases hj : j < src.length
  · have : ¬ (src.length ≤ j ∧ j < src.length + (size - src.length) ∧ j < out.length) := by
      omega
    rw [if_neg this]
    simp [copyInto, htake, List.getElem?_append, hj]
  · by_cases hj2 : j < size
    · have : src.length ≤ j ∧ j < src.length + (size - src.length) ∧ j < out.length := by
        omega
      rw [if_pos this]
      have h3 : j - src.length < size - src.length := by omega
      simp [List.getElem?_append, hj, List.getElem?_replicate, h3]
    · have : ¬ (src.length ≤ j ∧ j < src.length + (size - src.length) ∧ j < out.length) := by
        omega
      rw [if_neg this]
      have h3 : ¬ (j - src.length < size - src.length) := by omega
      have h4 : size + (j - src.length - (size - src.length)) = j := by omega
      have h5 : src.length + (j - src.length) = j := by omega
      simp [copyInto, htake, List.getElem?_append, hj, h3, List.getElem?_drop, h4, h5]

theorem setChannel_same (u : Unit A Ns) (i : Fin 2) (c : Channel A Ns) :
    (u.setChannel i c).channels_ i = c := by
  simp [Unit.setChannel]

theorem setChannel_other (u : Unit A Ns) (i j : Fin 2) (c : Channel A Ns) (h : j ≠ i) :
    (u.setChannel i c).channels_ j = u.channels_ j := by
  simp [Unit.setChannel, Function.update_noteq h]

/-- The array handed back by `RenderOutput`: the samples read, then zeros up to `size`,
then the untouched rest of the caller's array. -/
theorem RenderOutput_frame (u : Unit A Ns) (c : Fin 2) (out : List Int) (size : Nat)
    (h : size ≤ out.length) :
    (u.RenderOutput c out size).2 =
      (u.channels_ c).io_out.data.take (min size (u.channels_ c).io_out.data.length) ++
        List.replicate (size - min size (u.channels_ c).io_out.data.length) 0 ++
        out.drop size := by
  have hl : ((u.channels_ c).io_out.data.take
      (min size (u.channels_ c).io_out.data.length)).length =
      min size (u.channels_ c).io_out.data.length := by
    simp
  have := zeroFill_copyInto out ((u.channels_ c).io_out.data.take
      (min size (u.channels_ c).io_out.data.length)) size (by rw [hl]; omega) h
  rw [hl] at this
  simp only [Unit.RenderOutput, PaUtil_ReadRingBuffer, PaUtil_GetRingBufferReadAvailable]
  rw [hl]
  exact this

theorem RenderOutput_length (u : Unit A Ns) (c : Fin 2) (out : List Int) (size : Nat) :
    (u.RenderOutput c out size).2.length = out.length := by
  simp only [Unit.RenderOutput, zeroFill_length, copyInto, List.length_append,
    List.length_take, List.length_drop]
  omega

/-- What `RenderOutput` appends to the playback-reference ring: whatever fits of the first
`size` samples of the array it returns. -/
theorem RenderOutput_aec_out (u : Unit A Ns) (c : Fin 2) (out : List Int) (size : Nat) :
    ((u.RenderOutput c out size).1.channels_ c).aec_out.data =
      (u.channels_ c).aec_out.data ++
        ((u.RenderOutput c out size).2.take size).take
          (min size ((u.channels_ c).aec_out.capacity -
            (u.channels_ c).aec_out.data.length)) := by
  rw [List.take_take]
  simp [Unit.RenderOutput, Unit.setChannel, PaUtil_WriteRingBuffer,
    PaUtil_GetRingBufferWriteAvailable]

end Lemmas

/-! ## Facts about the concrete states -/

theorem Init_stub (hw : Hardware) : Unit.Init stubDsp hw = .ok idleUnit := by
  rfl

theorem playbackChannel_ready : 160 ≤ playbackChannel.aec_out.data.length :=
  le_of_eq (List.length_replicate 160 (3 : Int)).symm

theorem captureChannel_ready : 160 ≤ captureChannel.aec_in.data.length :=
  le_of_eq (List.length_replicate 160 (4 : Int)).symm

theorem captureChannel_room :
    160 ≤ captureChannel.io_in.capacity - captureChannel.io_in.data.length := by
  show 160 ≤ kBufferCapacity - 0
  decide

/-! ## RenderOutput and CommitInput -/

section Entry

variable {A Ns : Type}

/-- C1: for a channel index below 2, a count `size` and an output array with room for
`size` samples, `RenderOutput` leaves in `out[0 .. min(size, a))` the oldest `min(size, a)`
samples of `io_.out` (which are removed from the ring), zero in every position from
`min(size, a)` up to `size`, and the rest of the array untouched; when `io_.out` is empty
the read count is 0 and `out[0 .. size)` is entirely zero. -/
theorem RenderOutput_zero_fills_underrun (u : Unit A Ns) (c : Fin 2) (out : List Int)
    (size : Nat) (h : size ≤ out.length) :
    (u.RenderOutput c out size).2.take (min size (u.channels_ c).io_out.data.length) =
        (u.channels_ c).io_out.data.take (min size (u.channels_ c).io_out.data.length) ∧
    ((u.RenderOutput c out size).1.channels_ c).io_out.data =
        (u.channels_ c).io_out.data.drop (min size (u.channels_ c).io_out.data.length) ∧
    (∀ i, min size (u.channels_ c).io_out.data.length ≤ i → i < size →
        (u.RenderOutput c out size).2[i]? = some 0) ∧
    (u.RenderOutput c out size).2.drop size = out.drop size ∧
    ((u.channels_ c).io_out.data.length = 0 →
        (PaUtil_ReadRingBuffer (u.channels_ c).io_out size).2.length = 0 ∧
        (u.RenderOutput c out size).2.take size = List.replicate size 0) := by
  have hf := RenderOutput_frame u c out size h
  have hl : ((u.channels_ c).io_out.data.take
      (min size (u.channels_ c).io_out.data.length)).length =
      min size (u.channels_ c).io_out.data.length := by
    simp
  refine ⟨?_, ?_, ?_, ?_, ?_⟩
  · rw [hf, List.append_assoc, List.take_left' hl]
  · simp [Unit.RenderOutput, Unit.setChannel, PaUtil_ReadRingBuffer,
      PaUtil_GetRingBufferReadAvailable, PaUtil_WriteRingBuffer]
  · intro i h1 h2
    rw [hf, List.append_assoc, List.getElem?_append_right (by rw [hl]; exact h1), hl,
      List.getElem?_append_left (by simp; omega)]
    simp [List.getElem?_replicate]
    omega
  · rw [hf, List.drop_left']
    simp
  · intro h0
    constructor
    · simp [PaUtil_ReadRingBuffer, PaUtil_GetRingBufferReadAvailable, h0]
    · rw [hf]
      have hnil : (u.channels_ c).io_out.data = [] := List.length_eq_zero.mp h0
      simp [hnil]

theorem RenderOutput_zero_fills_underrun_witness :
    (idleUnit.RenderOutput 0 [5, 6, 7] 3).2.take 3 = List.replicate 3 0 :=
  ((RenderOutput_zero_fills_underrun idleUnit 0 [5, 6, 7] 3 (by decide)).2.2.2.2 rfl).2

/-- C2 fails as stated: with the playback-reference ring of channel 0 full, a render of a
160-sample frame leaves that ring as it was, so it is not its previous contents followed
by the frame. -/
theorem RenderOutput_mirror_dropped_when_full :
    ((fullPlaybackUnit.RenderOutput 0 (List.replicate 160 7) 160).1.channels_ 0).aec_out.data =
        (fullPlaybackUnit.channels_ 0).aec_out.data ∧
    ((fullPlaybackUnit.RenderOutput 0 (List.replicate 160 7) 160).1.channels_ 0).aec_out.data ≠
        (fullPlaybackUnit.channels_ 0).aec_out.data ++
          (fullPlaybackUnit.RenderOutput 0 (List.replicate 160 7) 160).2.take 160 := by
  have hc : (fullPlaybackUnit.channels_ 0).aec_out = ringOf (List.replicate 16384 0) := rfl
  have h1 := RenderOutput_aec_out fullPlaybackUnit 0 (List.replicate 160 7) 160
  have h0 : min 160 ((fullPlaybackUnit.channels_ 0).aec_out.capacity -
      (fullPlaybackUnit.channels_ 0).aec_out.data.length) = 0 := by
    rw [hc]
    simp only [ringOf, List.length_replicate]
    decide
  rw [h0, List.take_zero, List.append_nil] at h1
  refine ⟨h1, ?_⟩
  rw [h1]
  intro h2
  have h3 := congrArg List.length h2
  rw [List.length_append, List.length_take, RenderOutput_length, List.length_replicate] at h3
  omega

/-- C2, amended: after `RenderOutput` the playback-reference ring of the channel holds its
previous contents followed by the first `min(size, free)` samples of the returned frame,
where `free` is the room left in that ring; when `size ≤ free` that is the whole frame,
which consists of the samples read from `io_.out` followed by the zero-fill. -/
theorem RenderOutput_mirrors_what_fits (u : Unit A Ns) (c : Fin 2) (out : List Int)
    (size : Nat) (h : size ≤ out.length) :
    ((u.RenderOutput c out size).1.channels_ c).aec_out.data =
        (u.channels_ c).aec_out.data ++
          ((u.RenderOutput c out size).2.take size).take
            (min size ((u.channels_ c).aec_out.capacity -
              (u.channels_ c).aec_out.data.length)) ∧
    (size ≤ (u.channels_ c).aec_out.capacity - (u.channels_ c).aec_out.data.length →
      ((u.RenderOutput c out size).1.channels_ c).aec_out.data =
        (u.channels_ c).aec_out.data ++ (u.RenderOutput c out size).2.take size) ∧
    (u.RenderOutput c out size).2.take size =
      (u.channels_ c).io_out.data.take (min size (u.channels_ c).io_out.data.length) ++
        List.replicate (size - min size (u.channels_ c).io_out.data.length) 0 := by
  have hf := RenderOutput_frame u c out size h
  have h1 := RenderOutput_aec_out u c out size
  refine ⟨h1, ?_, ?_⟩
  · intro hfree
    rw [h1, List.take_take, min_eq_left hfree, min_self]
  · rw [hf]
    apply List.take_left'
    simp

theorem RenderOutput_mirrors_what_fits_witness :
    ((idleUnit.RenderOutput 0 [5, 6, 7] 3).1.channels_ 0).aec_out.data =
      (idleUnit.channels_ 0).aec_out.data ++ (idleUnit.RenderOutput 0 [5, 6, 7] 3).2.take 3 :=
  (RenderOutput_mirrors_what_fits idleUnit 0 [5, 6, 7] 3 (by decide)).2.1 (by decide)

end Entry

section Commit

variable {A Ns : Type}

/-- C3: for a channel index below 2 and an input of `size` samples, `CommitInput` always
returns, and the state it returns differs from the old one only in the capture ring of that
channel, which holds its previous unread data followed by the first `min(size, free)`
samples of the input; when the ring is full the whole state is unchanged; and a write of
`kBufferCapacity + k` samples into an empty ring of `kBufferCapacity` = 16384 samples
accepts exactly 16384 of them. -/
theorem CommitInput_appends_what_fits (u : Unit A Ns) (c : Fin 2) (inp : List Int)
    (size : Nat) (h : inp.length = size) :
    u.CommitInput c inp size =
        u.setChannel c { u.channels_ c with
          aec_in := { (u.channels_ c).aec_in with
            data := (u.channels_ c).aec_in.data ++
              inp.take (min size ((u.channels_ c).aec_in.capacity -
                (u.channels_ c).aec_in.data.length)) } } ∧
    ((u.CommitInput c inp size).channels_ c).aec_in.data.length =
        (u.channels_ c).aec_in.data.length +
          min size ((u.channels_ c).aec_in.capacity - (u.channels_ c).aec_in.data.length) ∧
    ((u.channels_ c).aec_in.data.length = (u.channels_ c).aec_in.capacity →
        u.CommitInput c inp size = u) ∧
    (∀ k, (u.channels_ c).aec_in = PaUtil_InitializeRingBuffer kBufferCapacity →
        size = kBufferCapacity + k →
        (PaUtil_WriteRingBuffer (u.channels_ c).aec_in inp size).2 = 16384 ∧
        ((u.CommitInput c inp size).channels_ c).aec_in.data = inp.take 16384 ∧
        ((u.CommitInput c inp size).channels_ c).aec_in.data.length = 16384) := by
  refine ⟨rfl, ?_, ?_, ?_⟩
  · simp only [Unit.CommitInput, PaUtil_WriteRingBuffer, PaUtil_GetRingBufferWriteAvailable,
      setChannel_same, List.length_append, List.length_take]
    omega
  · intro hfull
    have h0 : min size (PaUtil_GetRingBufferWriteAvailable (u.channels_ c).aec_in) = 0 := by
      simp [PaUtil_GetRingBufferWriteAvailable, hfull]
    simp only [Unit.CommitInput, PaUtil_WriteRingBuffer, h0, List.take_zero, List.append_nil,
      Unit.setChannel]
    simp
  · intro k hinit hk
    have hm : min size (PaUtil_GetRingBufferWriteAvailable (u.channels_ c).aec_in) = 16384 := by
      rw [hinit, hk]
      simp [PaUtil_GetRingBufferWriteAvailable, PaUtil_InitializeRingBuffer]
    refine ⟨?_, ?_, ?_⟩
    · simp only [PaUtil_WriteRingBuffer, hm]
    · simp only [Unit.CommitInput, PaUtil_WriteRingBuffer, hm, setChannel_same]
      rw [hinit]
      simp [PaUtil_InitializeRingBuffer]
    · simp only [Unit.CommitInput, PaUtil_WriteRingBuffer, hm, setChannel_same]
      rw [hinit]
      simp only [PaUtil_InitializeRingBuffer, List.nil_append, List.length_take]
      omega

theorem CommitInput_appends_what_fits_witness :
    ((idleUnit.CommitInput 0 (List.replicate (kBufferCapacity + 5) 1)
        (kBufferCapacity + 5)).channels_ 0).aec_in.data.length = 16384 :=
  ((CommitInput_appends_what_fits idleUnit 0 (List.replicate (kBufferCapacity + 5) 1)
    (kBufferCapacity + 5) (List.length_replicate _ _)).2.2.2 5 rfl rfl).2.2

end Commit

/-! ## The processing cycle -/

section CycleLemmas

variable {A Ns : Type}

theorem read_frame_length (rb : PaUtilRingBuffer) (h : 160 ≤ rb.data.length) :
    (PaUtil_ReadRingBuffer rb 160).2.length = 160 := by
  simp only [PaUtil_ReadRingBuffer, PaUtil_GetRingBufferReadAvailable, List.length_take]
  omega

theorem read_frame (rb : PaUtilRingBuffer) (h : 160 ≤ rb.data.length) :
    PaUtil_ReadRingBuffer rb 160 = (rb.popFrame, (rb.front h).val) := by
  have : min 160 rb.data.length = 160 := by omega
  simp only [PaUtil_ReadRingBuffer, PaUtil_GetRingBufferReadAvailable, this,
    PaUtilRingBuffer.popFrame, PaUtilRingBuffer.front]

/-- The far-end half when a playback frame is due and present: the read succeeds, the
frame goes to the canceller, and the call returns or aborts on the canceller's status. -/
theorem CycleFarend_fed (dsp : Dsp A Ns) (c : Channel A Ns) (avail_out : Nat)
    (hbuf : 160 ≤ c.aec_out.data.length) (hout : 160 ≤ avail_out) :
    c.CycleFarend dsp avail_out =
      if (dsp.WebRtcAec_BufferFarend c.aec_handle (c.aec_out.front hbuf)).1 = 0 then
        .ok { c with aec_out := c.aec_out.popFrame,
                     aec_handle :=
                       (dsp.WebRtcAec_BufferFarend c.aec_handle (c.aec_out.front hbuf)).2 }
      else
        .abort "Failed to queue AEC far end"
          { c with aec_out := c.aec_out.popFrame,
                   aec_handle :=
                     (dsp.WebRtcAec_BufferFarend c.aec_handle (c.aec_out.front hbuf)).2 } := by
  have hl := read_frame_length c.aec_out hbuf
  have hr := read_frame c.aec_out hbuf
  unfold Channel.CycleFarend
  rw [if_pos hout]
  simp only [kChunkSize]
  rw [dif_pos hl]
  simp only [hr]

/-- The far-end half when a playback frame is due but the ring holds less than a frame:
the read drains the ring and the assertion on the count aborts. -/
theorem CycleFarend_underrun (dsp : Dsp A Ns) (c : Channel A Ns) (avail_out : Nat)
    (hbuf : c.aec_out.data.length < 160) (hout : 160 ≤ avail_out) :
    c.CycleFarend dsp avail_out =
      .abort "Read less than expected"
        { c with aec_out := (PaUtil_ReadRingBuffer c.aec_out 160).1 } := by
  have hl : ¬ (PaUtil_ReadRingBuffer c.aec_out 160).2.length = 160 := by
    simp only [PaUtil_ReadRingBuffer, PaUtil_GetRingBufferReadAvailable, List.length_take]
    omega
  unfold Channel.CycleFarend
  rw [if_pos hout]
  simp only [kChunkSize]
  rw [dif_neg hl]

theorem CycleFarend_skipped (dsp : Dsp A Ns) (c : Channel A Ns) (avail_out : Nat)
    (hout : avail_out < 160) : c.CycleFarend dsp avail_out = .ok c := by
  unfold Channel.CycleFarend
  rw [if_neg (by simp only [kChunkSize]; omega)]

theorem CycleCapture_skipped (dsp : Dsp A Ns) (c : Channel A Ns) (avail_in : Nat)
    (hin : avail_in < 160) : c.CycleCapture dsp avail_in = .ok c := by
  unfold Channel.CycleCapture
  rw [if_neg (by omega)]

/-- The capture half when a capture frame is due and present and the collaborators report
success: the oldest frame leaves the capture ring and whatever fits of the processed frame
is written to `io_.in`. -/
theorem CycleCapture_done (dsp : Dsp A Ns) (c : Channel A Ns) (avail_in : Nat)
    (hbuf : 160 ≤ c.aec_in.data.length) (hin : 160 ≤ avail_in) (hs : dsp.ReportsSuccess) :
    ∃ c1 : Channel A Ns, c.CycleCapture dsp avail_in = .ok c1 ∧
      c1.aec_in = c.aec_in.popFrame ∧ c1.aec_out = c.aec_out ∧ c1.io_out = c.io_out ∧
      c1.io_in =
        (PaUtil_WriteRingBuffer c.io_in (c.processed dsp (c.aec_in.front hbuf)).val 160).1 := by
  have hl := read_frame_length c.aec_in hbuf
  have hr := read_frame c.aec_in hbuf
  unfold Channel.CycleCapture
  rw [if_pos hin, dif_pos hl]
  simp only [hr]
  rw [if_pos (hs.2.1 _ _ _ _ _), if_pos (hs.2.2 _ _ _)]
  exact ⟨_, rfl, rfl, rfl, rfl, rfl⟩

theorem processed_passThrough (dsp : Dsp A Ns) (c : Channel A Ns) (f : Samples 160)
    (hid : dsp.IsPassThrough) : c.processed dsp f = f := by
  obtain ⟨h1, h2, h3⟩ := hid
  unfold Channel.processed
  simp only []
  have e1 := h1 c.aec_handle (dsp.WebRtcSpl_AnalysisQMF f c.a_lo c.a_hi).1
    (dsp.WebRtcSpl_AnalysisQMF f c.a_lo c.a_hi).2.1 0 0
  have e11 := congrArg Prod.fst e1
  have e12 := congrArg Prod.snd e1
  simp only at e11 e12
  have e2 := h2 c.ns_ (dsp.WebRtcSpl_AnalysisQMF f c.a_lo c.a_hi).1
    (dsp.WebRtcSpl_AnalysisQMF f c.a_lo c.a_hi).2.1
  have e21 := congrArg Prod.fst e2
  have e22 := congrArg Prod.snd e2
  simp only at e21 e22
  rw [e11, e12, e21, e22]
  exact h3 f c.a_lo c.a_hi c.s_lo c.s_hi

theorem stubDsp_reportsSuccess : stubDsp.ReportsSuccess :=
  ⟨fun _ _ => rfl, fun _ _ _ _ _ => rfl, fun _ _ _ => rfl⟩

theorem stubDsp_isPassThrough : stubDsp.IsPassThrough := by
  refine ⟨fun _ _ _ _ _ => rfl, fun _ _ _ => rfl, ?_⟩
  intro f a_lo a_hi s_lo s_hi
  apply Subtype.ext
  exact List.take_append_drop 80 f.val

end CycleLemmas

section CycleProperties

variable {A Ns : Type}

/-- C7: when the playback-reference ring holds at least 160 samples and `Cycle` is called
with playback availability at least 160 and capture availability below 160, the state it
reaches (whether the canceller then reports success or not) has exactly the oldest 160
samples removed from the playback-reference ring and the canceller state produced by one
far-end call on exactly that frame; the capture ring, `io_.in`, `io_.out`, the four filter
arrays and the suppressor are unchanged, and the call returns normally when the canceller
reports success. -/
theorem Cycle_feeds_farend_only (dsp : Dsp A Ns) (c : Channel A Ns) (avail_in avail_out : Nat)
    (hbuf : 160 ≤ c.aec_out.data.length) (hout : 160 ≤ avail_out) (hin : avail_in < 160) :
    (c.aec_out.front hbuf).val = c.aec_out.data.take 160 ∧
    (c.Cycle dsp avail_in avail_out).state =
      { c with aec_out := { c.aec_out with data := c.aec_out.data.drop 160 },
               aec_handle :=
                 (dsp.WebRtcAec_BufferFarend c.aec_handle (c.aec_out.front hbuf)).2 } ∧
    (c.Cycle dsp avail_in avail_out).state.aec_in = c.aec_in ∧
    (c.Cycle dsp avail_in avail_out).state.io_in = c.io_in ∧
    (c.Cycle dsp avail_in avail_out).state.io_out = c.io_out ∧
    (c.Cycle dsp avail_in avail_out).state.a_lo = c.a_lo ∧
    (c.Cycle dsp avail_in avail_out).state.a_hi = c.a_hi ∧
    (c.Cycle dsp avail_in avail_out).state.s_lo = c.s_lo ∧
    (c.Cycle dsp avail_in avail_out).state.s_hi = c.s_hi ∧
    ((dsp.WebRtcAec_BufferFarend c.aec_handle (c.aec_out.front hbuf)).1 = 0 →
      c.Cycle dsp avail_in avail_out = .ok (c.Cycle dsp avail_in avail_out).state) := by
  have hf := CycleFarend_fed dsp c avail_out hbuf hout
  have hst : (c.Cycle dsp avail_in avail_out).state =
      { c with aec_out := { c.aec_out with data := c.aec_out.data.drop 160 },
               aec_handle :=
                 (dsp.WebRtcAec_BufferFarend c.aec_handle (c.aec_out.front hbuf)).2 } := by
    unfold Channel.Cycle
    rw [hf]
    by_cases h0 : (dsp.WebRtcAec_BufferFarend c.aec_handle (c.aec_out.front hbuf)).1 = 0
    · rw [if_pos h0]
      simp only [Outcome.bind]
      rw [CycleCapture_skipped dsp _ avail_in hin]
      rfl
    · rw [if_neg h0]
      rfl
  refine ⟨rfl, hst, ?_, ?_, ?_, ?_, ?_, ?_, ?_, ?_⟩
  · rw [hst]
  · rw [hst]
  · rw [hst]
  · rw [hst]
  · rw [hst]
  · rw [hst]
  · rw [hst]
  · intro h0
    rw [hst]
    unfold Channel.Cycle
    rw [hf, if_pos h0]
    simp only [Outcome.bind]
    rw [CycleCapture_skipped dsp _ avail_in hin]
    rfl

theorem Cycle_feeds_farend_only_witness :
    (playbackChannel.Cycle stubDsp 0 160).state =
      { playbackChannel with
          aec_out := { playbackChannel.aec_out with
                       data := playbackChannel.aec_out.data.drop 160 },
          aec_handle := (stubDsp.WebRtcAec_BufferFarend playbackChannel.aec_handle
            (playbackChannel.aec_out.front playbackChannel_ready)).2 } :=
  (Cycle_feeds_farend_only stubDsp playbackChannel 0 160 playbackChannel_ready (by decide)
    (by decide)).2.1

/-- C8 fails as stated: a channel holding one capture frame, with all of `io_.in` free,
called with capture availability 160 and playback availability 160 while its
playback-reference ring is empty, aborts on the first "Read less than expected" assertion;
the capture frame stays in the capture ring and nothing is appended to `io_.in`. -/
theorem Cycle_capture_blocked_by_playback_assert :
    160 ≤ captureChannel.aec_in.data.length ∧
    160 ≤ captureChannel.io_in.capacity - captureChannel.io_in.data.length ∧
    captureChannel.Cycle stubDsp 160 160 =
      .abort "Read less than expected" captureChannel ∧
    (captureChannel.Cycle stubDsp 160 160).state.io_in.data = [] ∧
    (captureChannel.Cycle stubDsp 160 160).state.aec_in.data = List.replicate 160 4 := by
  have hc : captureChannel.Cycle stubDsp 160 160 =
      .abort "Read less than expected" captureChannel := by
    unfold Channel.Cycle
    rw [CycleFarend_underrun stubDsp captureChannel 160 (by decide) (by decide)]
    rfl
  refine ⟨captureChannel_ready, captureChannel_room, hc, ?_, ?_⟩
  · rw [hc]
    rfl
  · rw [hc]
    rfl

/-- C8, amended: when the capture ring holds at least 160 samples, `io_.in` has at least
160 free, the capture availability is at least 160, the playback availability is below 160
or the playback-reference ring holds at least 160 samples, and the collaborators report
success, `Cycle` returns normally, removes exactly the oldest 160 samples `F` from the
capture ring and appends to `io_.in` exactly one 160-sample frame, the result of analysis,
canceller, suppressor and synthesis applied in that order to `F` with the channel's filter
arrays; when every stage is a pass-through the appended frame equals `F`. -/
theorem Cycle_processes_one_capture_frame (dsp : Dsp A Ns) (c : Channel A Ns)
    (avail_in avail_out : Nat)
    (hbuf : 160 ≤ c.aec_in.data.length)
    (hfree : 160 ≤ c.io_in.capacity - c.io_in.data.length)
    (hin : 160 ≤ avail_in)
    (hplay : avail_out < 160 ∨ 160 ≤ c.aec_out.data.length)
    (hs : dsp.ReportsSuccess) :
    ∃ c1 c2 : Channel A Ns,
      c.CycleFarend dsp avail_out = .ok c1 ∧
      c1.a_lo = c.a_lo ∧ c1.a_hi = c.a_hi ∧ c1.s_lo = c.s_lo ∧ c1.s_hi = c.s_hi ∧
      c.Cycle dsp avail_in avail_out = .ok c2 ∧
      (c.aec_in.front hbuf).val = c.aec_in.data.take 160 ∧
      c2.aec_in.data = c.aec_in.data.drop 160 ∧
      c2.io_in.data = c.io_in.data ++ (c1.processed dsp (c.aec_in.front hbuf)).val ∧
      (c1.processed dsp (c.aec_in.front hbuf)).val.length = 160 ∧
      (dsp.IsPassThrough → c2.io_in.data = c.io_in.data ++ c.aec_in.data.take 160) := by
  have hfar : ∃ c1 : Channel A Ns, c.CycleFarend dsp avail_out = .ok c1 ∧
      c1.aec_in = c.aec_in ∧ c1.io_in = c.io_in ∧
      c1.a_lo = c.a_lo ∧ c1.a_hi = c.a_hi ∧ c1.s_lo = c.s_lo ∧ c1.s_hi = c.s_hi := by
    by_cases hlt : avail_out < 160
    · exact ⟨c, CycleFarend_skipped dsp c avail_out hlt, rfl, rfl, rfl, rfl, rfl, rfl⟩
    · have hb : 160 ≤ c.aec_out.data.length := by
        cases hplay with
        | inl h => exact absurd h hlt
        | inr h => exact h
      refine ⟨{ c with aec_out := c.aec_out.popFrame,
                       aec_handle :=
                         (dsp.WebRtcAec_BufferFarend c.aec_handle (c.aec_out.front hb)).2 },
        ?_, rfl, rfl, rfl, rfl, rfl, rfl⟩
      rw [CycleFarend_fed dsp c avail_out hb (by omega), if_pos (hs.1 _ _)]
  obtain ⟨c1, h1, hain, hio, ha, hb, hc, hd⟩ := hfar
  have hbuf1 : 160 ≤ c1.aec_in.data.length := by rw [hain]; exact hbuf
  obtain ⟨c2, h2, h2in, -, -, h2io⟩ := CycleCapture_done dsp c1 avail_in hbuf1 hin hs
  have hfront : c1.aec_in.front hbuf1 = c.aec_in.front hbuf := by
    apply Subtype.ext
    simp only [PaUtilRingBuffer.front, hain]
  have hio2 : c2.io_in.data =
      c.io_in.data ++ (c1.processed dsp (c.aec_in.front hbuf)).val := by
    rw [h2io, hfront, hio]
    have hm : min 160 (PaUtil_GetRingBufferWriteAvailable c.io_in) = 160 := by
      simp only [PaUtil_GetRingBufferWriteAvailable]
      omega
    simp only [PaUtil_WriteRingBuffer, hm]
    rw [List.take_of_length_le (le_of_eq (c1.processed dsp (c.aec_in.front hbuf)).property)]
  refine ⟨c1, c2, h1, ha, hb, hc, hd, ?_, rfl, ?_, hio2,
    (c1.processed dsp (c.aec_in.front hbuf)).property, ?_⟩
  · unfold Channel.Cycle
    rw [h1]
    exact h2
  · rw [h2in, hain]
    rfl
  · intro hid
    rw [hio2, processed_passThrough dsp c1 _ hid]
    rfl

theorem Cycle_processes_one_capture_frame_witness :
    ∃ c1 c2 : Channel (List (List Int)) Nat,
      captureChannel.CycleFarend stubDsp 0 = .ok c1 ∧
      c1.a_lo = captureChannel.a_lo ∧ c1.a_hi = captureChannel.a_hi ∧
      c1.s_lo = captureChannel.s_lo ∧ c1.s_hi = captureChannel.s_hi ∧
      captureChannel.Cycle stubDsp 160 0 = .ok c2 ∧
      (captureChannel.aec_in.front captureChannel_ready).val = captureChannel.aec_in.data.take 160 ∧
      c2.aec_in.data = captureChannel.aec_in.data.drop 160 ∧
      c2.io_in.data = captureChannel.io_in.data ++
        (c1.processed stubDsp (captureChannel.aec_in.front captureChannel_ready)).val ∧
      (c1.processed stubDsp (captureChannel.aec_in.front captureChannel_ready)).val.length = 160 ∧
      (stubDsp.IsPassThrough →
        c2.io_in.data = captureChannel.io_in.data ++ captureChannel.aec_in.data.take 160) :=
  Cycle_processes_one_capture_frame stubDsp captureChannel 160 0 captureChannel_ready
    captureChannel_room (by decide) (Or.inl (by decide)) stubDsp_reportsSuccess

end CycleProperties

/-! ## The worker pass -/

section Worker

variable {A Ns : Type}

theorem lastChannel_one : lastChannel 1 = some 0 := rfl

theorem lastChannel_two : lastChannel 2 = some 1 := rfl

/-- The table `lastChannel` is the index `count - 1` computed modulo `2^64`. -/
theorem lastChannel_wraps (count : Nat) (h : count < 2 ^ 64) (i : Fin 2) :
    lastChannel count = some i ↔ (count + 2 ^ 64 - 1) % 2 ^ 64 = i.val := by
  have hi : i = 0 ∨ i = 1 := by omega
  match count, h with
  | 0, _ => cases hi with
    | inl e => subst e; simp [lastChannel]
    | inr e => subst e; simp [lastChannel]
  | 1, _ => cases hi with
    | inl e => subst e; simp [lastChannel]
    | inr e => subst e; simp [lastChannel]
  | 2, _ => cases hi with
    | inl e => subst e; simp [lastChannel]
    | inr e => subst e; simp [lastChannel]
  | n + 3, h =>
    have : (n + 3 + 2 ^ 64 - 1) % 2 ^ 64 = n + 2 := by omega
    rw [this]
    cases hi with
    | inl e => subst e; simp [lastChannel]
    | inr e => subst e; simp [lastChannel]

theorem setChannel_self (u : Unit A Ns) (i : Fin 2) : u.setChannel i (u.channels_ i) = u := by
  simp [Unit.setChannel]

theorem Cycle_idle (dsp : Dsp A Ns) (c : Channel A Ns) (avail_in avail_out : Nat)
    (hin : avail_in < 160) (hout : avail_out < 160) :
    c.Cycle dsp avail_in avail_out = .ok c := by
  unfold Channel.Cycle
  rw [CycleFarend_skipped dsp c avail_out hout]
  simp only [Outcome.bind]
  exact CycleCapture_skipped dsp c avail_in hin

/-- A pass whose two availability counts are both below a frame touches no channel and
only raises the completion signal. -/
theorem DoAEC_idle (dsp : Dsp A Ns) (hw : Hardware) (u : Unit A Ns) (avail_in avail_out : Nat)
    (hav : u.DoAEC_avail hw = some (avail_in, avail_out))
    (hin : avail_in < 160) (hout : avail_out < 160) :
    u.DoAEC dsp hw = .ok { u with aec_async_ := true } := by
  unfold Unit.DoAEC
  rw [hav]
  simp only [Unit.cycleChannels, Unit.cycleChannel, Cycle_idle dsp _ _ _ hin hout,
    Outcome.map, Outcome.bind, setChannel_self]

/-- A channel with a frame in both the capture and the playback-reference ring, room in
`io_.in` and both availability counts at least a frame: one frame leaves each ring and one
frame is appended to `io_.in`. -/
theorem Cycle_both (dsp : Dsp A Ns) (c : Channel A Ns) (avail_in avail_out : Nat)
    (hcap : 160 ≤ c.aec_in.data.length) (hplay : 160 ≤ c.aec_out.data.length)
    (hfree : 160 ≤ c.io_in.capacity - c.io_in.data.length)
    (hin : 160 ≤ avail_in) (hout : 160 ≤ avail_out) (hs : dsp.ReportsSuccess) :
    ∃ c2 : Channel A Ns, c.Cycle dsp avail_in avail_out = .ok c2 ∧
      c2.aec_in.data = c.aec_in.data.drop 160 ∧
      c2.aec_out.data = c.aec_out.data.drop 160 ∧
      ∃ f : Samples 160, c2.io_in.data = c.io_in.data ++ f.val := by
  obtain ⟨c1, hf, h1in, h1out, h1io⟩ : ∃ c1 : Channel A Ns,
      c.CycleFarend dsp avail_out = .ok c1 ∧ c1.aec_in = c.aec_in ∧
      c1.aec_out = c.aec_out.popFrame ∧ c1.io_in = c.io_in := by
    refine ⟨{ c with aec_out := c.aec_out.popFrame,
                     aec_handle :=
                       (dsp.WebRtcAec_BufferFarend c.aec_handle (c.aec_out.front hplay)).2 },
      ?_, rfl, rfl, rfl⟩
    rw [CycleFarend_fed dsp c avail_out hplay hout, if_pos (hs.1 _ _)]
  have hcap1 : 160 ≤ c1.aec_in.data.length := by rw [h1in]; exact hcap
  obtain ⟨c2, h2, h2in, h2out, -, h2io⟩ := CycleCapture_done dsp c1 avail_in hcap1 hin hs
  refine ⟨c2, ?_, ?_, ?_, ⟨c1.processed dsp (c1.aec_in.front hcap1), ?_⟩⟩
  · unfold Channel.Cycle
    rw [hf]
    simp only [Outcome.bind]
    exact h2
  · rw [h2in, h1in]
    rfl
  · rw [h2out, h1out]
    rfl
  · rw [h2io, h1io]
    have hm : min 160 (PaUtil_GetRingBufferWriteAvailable c.io_in) = 160 := by
      simp only [PaUtil_GetRingBufferWriteAvailable]
      omega
    simp only [PaUtil_WriteRingBuffer, hm]
    rw [List.take_of_length_le
      (le_of_eq (c1.processed dsp (c1.aec_in.front hcap1)).property)]

/-- One pass over a unit all of whose channels hold a frame in both rings: each channel
loses one capture and one playback frame and gains one `io_.in` frame. -/
theorem DoAEC_pass (dsp : Dsp A Ns) (hw : Hardware) (u : Unit A Ns) (last_in last_out : Fin 2)
    (hli : lastChannel (hw.GetChannelCount Side.kInput) = some last_in)
    (hlo : lastChannel (hw.GetChannelCount Side.kOutput) = some last_out)
    (hcap : ∀ i, 160 ≤ (u.channels_ i).aec_in.data.length)
    (hplay : ∀ i, 160 ≤ (u.channels_ i).aec_out.data.length)
    (hfree : ∀ i, 160 ≤ (u.channels_ i).io_in.capacity - (u.channels_ i).io_in.data.length)
    (hs : dsp.ReportsSuccess) :
    ∃ u1 : Unit A Ns, u.DoAEC dsp hw = .ok u1 ∧ u1.aec_async_ = true ∧
      ∀ i, (u1.channels_ i).aec_in.data = (u.channels_ i).aec_in.data.drop 160 ∧
        (u1.channels_ i).aec_out.data = (u.channels_ i).aec_out.data.drop 160 ∧
        ∃ f : Samples 160, (u1.channels_ i).io_in.data = (u.channels_ i).io_in.data ++ f.val := by
  have hav : u.DoAEC_avail hw =
      some ((u.channels_ last_in).aec_out.data.length,
            (u.channels_ last_out).aec_out.data.length) := by
    unfold Unit.DoAEC_avail
    rw [hli, hlo]
    rfl
  obtain ⟨c0, e0, p0⟩ := Cycle_both dsp (u.channels_ 0) _ _ (hcap 0) (hplay 0) (hfree 0)
    (hplay last_in) (hplay last_out) hs
  obtain ⟨c1, e1, p1⟩ := Cycle_both dsp (u.channels_ 1) _ _ (hcap 1) (hplay 1) (hfree 1)
    (hplay last_in) (hplay last_out) hs
  have h01 : ((u.setChannel 0 c0).channels_ 1) = u.channels_ 1 :=
    setChannel_other u 0 1 c0 (by decide)
  refine ⟨{ (u.setChannel 0 c0).setChannel 1 c1 with aec_async_ := true }, ?_, rfl, ?_⟩
  · unfold Unit.DoAEC
    rw [hav]
    simp only [Unit.cycleChannels, Unit.cycleChannel, e0, Outcome.map, Outcome.bind, h01, e1]
  · intro i
    have hi : i = 0 ∨ i = 1 := by omega
    cases hi with
    | inl h =>
      subst h
      have : (((u.setChannel 0 c0).setChannel 1 c1).channels_ 0) = c0 := by
        rw [setChannel_other _ 1 0 c1 (by decide), setChannel_same]
      show (((u.setChannel 0 c0).setChannel 1 c1).channels_ 0).aec_in.data = _ ∧
        (((u.setChannel 0 c0).setChannel 1 c1).channels_ 0).aec_out.data = _ ∧
        ∃ f : Samples 160,
          (((u.setChannel 0 c0).setChannel 1 c1).channels_ 0).io_in.data = _ ++ f.val
      rw [this]
      exact p0
    | inr h =>
      subst h
      have : (((u.setChannel 0 c0).setChannel 1 c1).channels_ 1) = c1 := setChannel_same _ _ _
      show (((u.setChannel 0 c0).setChannel 1 c1).channels_ 1).aec_in.data = _ ∧
        (((u.setChannel 0 c0).setChannel 1 c1).channels_ 1).aec_out.data = _ ∧
        ∃ f : Samples 160,
          (((u.setChannel 0 c0).setChannel 1 c1).channels_ 1).io_in.data = _ ++ f.val
      rw [this]
      exact p1

end Worker

section WorkerProperties

variable {A Ns : Type}

theorem CommitInput_aec_in_data (u : Unit A Ns) (c : Fin 2) (inp : List Int) (size : Nat) :
    ((u.CommitInput c inp size).channels_ c).aec_in.data =
      (u.channels_ c).aec_in.data ++
        inp.take (min size ((u.channels_ c).aec_in.capacity -
          (u.channels_ c).aec_in.data.length)) := by
  simp only [Unit.CommitInput, setChannel_same, PaUtil_WriteRingBuffer,
    PaUtil_GetRingBufferWriteAvailable]

theorem committedUnit_capture : (committedUnit.channels_ 0).aec_in.data = List.replicate 160 0 := by
  have h := CommitInput_aec_in_data idleUnit 0 (List.replicate 160 0) 160
  have hm : min 160 ((idleUnit.channels_ 0).aec_in.capacity -
      (idleUnit.channels_ 0).aec_in.data.length) = 160 := by decide
  rw [hm, List.take_of_length_le (le_of_eq (List.length_replicate _ _))] at h
  exact h

theorem committedUnit_avail (n : Nat) :
    ({ committedUnit with aec_sem_ := n }).DoAEC_avail (hwChannels 1 1) = some (0, 0) := by
  unfold Unit.DoAEC_avail
  simp only [hwChannels, lastChannel_one]
  rfl

/-- The completion callback on a unit whose last input channel has an empty `io_.in`
returns at once without a delivery. -/
theorem AsyncCb_empty (hw : Hardware) (u : Unit A Ns) (last : Fin 2)
    (hl : lastChannel (hw.GetChannelCount Side.kInput) = some last)
    (he : (u.channels_ last).io_in.data = []) :
    u.AsyncCb hw 0 = .ok (u, []) := by
  unfold Unit.AsyncCb
  rw [if_neg (by decide)]
  simp only [hl, PaUtil_GetRingBufferReadAvailable, he, List.length_nil, AsyncCb_while]

/-- C6 fails on the code: after committing one 160-sample capture frame on a 1-in/1-out
unit, the last input channel's capture ring has 160 readable samples, yet `DoAEC` computes
the pair (0, 0): its capture availability is read from that channel's playback-reference
ring. The pass therefore processes nothing and only raises the completion signal. -/
theorem DoAEC_capture_availability_from_playback_ring :
    PaUtil_GetRingBufferReadAvailable (committedUnit.channels_ 0).aec_in = 160 ∧
    PaUtil_GetRingBufferReadAvailable (committedUnit.channels_ 0).aec_out = 0 ∧
    committedUnit.DoAEC_avail (hwChannels 1 1) = some (0, 0) ∧
    committedUnit.DoAEC stubDsp (hwChannels 1 1) =
      .ok { committedUnit with aec_async_ := true } := by
  refine ⟨?_, rfl, committedUnit_avail 0, ?_⟩
  · simp only [PaUtil_GetRingBufferReadAvailable, committedUnit_capture,
      List.length_replicate]
  · exact DoAEC_idle stubDsp (hwChannels 1 1) committedUnit 0 0 (committedUnit_avail 0)
      (by decide) (by decide)

/-- C4 fails on the code: on a freshly initialised 1-in/1-out unit with the pass-through
DSP, committing 160 zero samples, flushing, one `DoAEC` pass and the completion callback
return normally with no delivery at all; the committed frame is still in the capture ring
and `io_.in` of channel 0 is empty. -/
theorem endToEnd_makes_no_delivery :
    endToEnd stubDsp (hwChannels 1 1) =
      some (.ok ({ committedUnit.FlushInput with aec_async_ := true }, [])) ∧
    (committedUnit.FlushInput.channels_ 0).aec_in.data = List.replicate 160 0 ∧
    (committedUnit.FlushInput.channels_ 0).io_in.data = [] := by
  have h1 : committedUnit.FlushInput.DoAEC stubDsp (hwChannels 1 1) =
      .ok { committedUnit.FlushInput with aec_async_ := true } :=
    DoAEC_idle stubDsp (hwChannels 1 1) committedUnit.FlushInput 0 0 (committedUnit_avail _)
      (by decide) (by decide)
  have h2 : ({ committedUnit.FlushInput with aec_async_ := true }).AsyncCb (hwChannels 1 1) 0 =
      .ok ({ committedUnit.FlushInput with aec_async_ := true }, []) :=
    AsyncCb_empty (hwChannels 1 1) _ 0 lastChannel_one rfl
  refine ⟨?_, committedUnit_capture, rfl⟩
  unfold endToEnd
  rw [Init_stub]
  show (match committedUnit.FlushInput.DoAEC stubDsp (hwChannels 1 1) with
    | .ok u1 => some (u1.AsyncCb (hwChannels 1 1) 0)
    | .abort m u1 => some (.abort m (u1, []))
    | .undefined u1 => some (.undefined (u1, []))) = _
  rw [h1]
  simp only [h2]

theorem backlogUnit_capture (i : Fin 2) : (backlogUnit.channels_ i).aec_in.data.length = 320 :=
  List.length_replicate 320 (0 : Int)

theorem backlogUnit_playback (i : Fin 2) : (backlogUnit.channels_ i).aec_out.data.length = 320 :=
  List.length_replicate 320 (0 : Int)

/-- C9 fails as stated: with two complete capture frames (and two playback frames) in every
channel and empty `io_.in` rings, one `DoAEC` pass with the pass-through DSP returns
normally and leaves a full frame of 160 samples in every capture ring and a single frame,
not two, in every `io_.in`. -/
theorem DoAEC_pass_leaves_backlog :
    (∀ i, (backlogUnit.channels_ i).aec_in.data.length = 160 * 2) ∧
    ∃ u1, backlogUnit.DoAEC stubDsp (hwChannels 2 2) = .ok u1 ∧
      ∀ i, (u1.channels_ i).aec_in.data.length = 160 ∧
        ¬ (u1.channels_ i).aec_in.data.length < 160 ∧
        (u1.channels_ i).io_in.data.length = 160 ∧
        (u1.channels_ i).io_in.data.length ≠ 160 * 2 := by
  refine ⟨backlogUnit_capture, ?_⟩
  obtain ⟨u1, h1, -, h2⟩ := DoAEC_pass stubDsp (hwChannels 2 2) backlogUnit 1 1
    lastChannel_two lastChannel_two
    (fun i => by rw [backlogUnit_capture]; decide)
    (fun i => by rw [backlogUnit_playback]; decide)
    (fun i => by show 160 ≤ kBufferCapacity - 0; decide)
    stubDsp_reportsSuccess
  refine ⟨u1, h1, ?_⟩
  intro i
  obtain ⟨a, -, f, b⟩ := h2 i
  have ha : (u1.channels_ i).aec_in.data.length = 160 := by
    rw [a, List.length_drop, backlogUnit_capture]
  have hb : (u1.channels_ i).io_in.data.length = 160 := by
    rw [b, List.length_append, f.property]
    rfl
  exact ⟨ha, by omega, hb, by omega⟩

/-- C9, amended: a single worker pass handles one frame per entry of `channels_`. `DoAEC`
cycles both entries of the array whatever channel count the hardware reports, so the
conditions are on both entries: when the hardware reports 1 or 2 channels on each side,
each of the two entries of `channels_` holds `m ≥ 1` complete capture frames, at least 160
playback-reference samples and 160 free in `io_.in`, and the collaborators report success,
one `DoAEC` pass returns normally, removes exactly the oldest 160 samples from the capture
ring of both entries (leaving `m - 1` complete frames), appends exactly one 160-sample
frame to `io_.in` of both entries, and raises the completion signal. -/
theorem DoAEC_pass_handles_one_frame_per_channel (dsp : Dsp A Ns) (hw : Hardware)
    (u : Unit A Ns) (m : Nat)
    (hni : hw.GetChannelCount Side.kInput = 1 ∨ hw.GetChannelCount Side.kInput = 2)
    (hno : hw.GetChannelCount Side.kOutput = 1 ∨ hw.GetChannelCount Side.kOutput = 2)
    (hm : 1 ≤ m)
    (hcap : ∀ i, (u.channels_ i).aec_in.data.length / 160 = m)
    (hplay : ∀ i, 160 ≤ (u.channels_ i).aec_out.data.length)
    (hfree : ∀ i, 160 ≤ (u.channels_ i).io_in.capacity - (u.channels_ i).io_in.data.length)
    (hs : dsp.ReportsSuccess) :
    ∃ u1 : Unit A Ns, u.DoAEC dsp hw = .ok u1 ∧ u1.aec_async_ = true ∧
      ∀ i, (u1.channels_ i).aec_in.data = (u.channels_ i).aec_in.data.drop 160 ∧
        (u1.channels_ i).aec_in.data.length / 160 = m - 1 ∧
        ∃ f : Samples 160, (u1.channels_ i).io_in.data = (u.channels_ i).io_in.data ++ f.val := by
  have hli : ∃ l, lastChannel (hw.GetChannelCount Side.kInput) = some l := by
    cases hni with
    | inl h => exact ⟨0, by rw [h]; exact lastChannel_one⟩
    | inr h => exact ⟨1, by rw [h]; exact lastChannel_two⟩
  have hlo : ∃ l, lastChannel (hw.GetChannelCount Side.kOutput) = some l := by
    cases hno with
    | inl h => exact ⟨0, by rw [h]; exact lastChannel_one⟩
    | inr h => exact ⟨1, by rw [h]; exact lastChannel_two⟩
  obtain ⟨li, hli⟩ := hli
  obtain ⟨lo, hlo⟩ := hlo
  have hcap1 : ∀ i, 160 ≤ (u.channels_ i).aec_in.data.length := by
    intro i
    have := hcap i
    omega
  obtain ⟨u1, h1, h2, h3⟩ := DoAEC_pass dsp hw u li lo hli hlo hcap1 hplay hfree hs
  refine ⟨u1, h1, h2, ?_⟩
  intro i
  obtain ⟨a, -, b⟩ := h3 i
  refine ⟨a, ?_, b⟩
  rw [a, List.length_drop]
  have := hcap i
  omega

theorem DoAEC_pass_handles_one_frame_per_channel_witness :
    (∃ u1, backlogUnit.DoAEC stubDsp (hwChannels 2 2) = .ok u1 ∧ u1.aec_async_ = true ∧
      ∀ i, (u1.channels_ i).aec_in.data = (backlogUnit.channels_ i).aec_in.data.drop 160 ∧
        (u1.channels_ i).aec_in.data.length / 160 = 2 - 1 ∧
        ∃ f : Samples 160,
          (u1.channels_ i).io_in.data = (backlogUnit.channels_ i).io_in.data ++ f.val) ∧
    (∃ u1, backlogUnit.DoAEC stubDsp (hwChannels 1 1) = .ok u1 ∧ u1.aec_async_ = true ∧
      ∀ i, (u1.channels_ i).aec_in.data = (backlogUnit.channels_ i).aec_in.data.drop 160 ∧
        (u1.channels_ i).aec_in.data.length / 160 = 2 - 1 ∧
        ∃ f : Samples 160,
          (u1.channels_ i).io_in.data = (backlogUnit.channels_ i).io_in.data ++ f.val) :=
  ⟨DoAEC_pass_handles_one_frame_per_channel stubDsp (hwChannels 2 2) backlogUnit 2
      (Or.inr rfl) (Or.inr rfl) (by decide)
      (fun i => by rw [backlogUnit_capture])
      (fun i => by rw [backlogUnit_playback]; decide)
      (fun i => by show 160 ≤ kBufferCapacity - 0; decide)
      stubDsp_reportsSuccess,
   DoAEC_pass_handles_one_frame_per_channel stubDsp (hwChannels 1 1) backlogUnit 2
      (Or.inl rfl) (Or.inl rfl) (by decide)
      (fun i => by rw [backlogUnit_capture])
      (fun i => by rw [backlogUnit_playback]; decide)
      (fun i => by show 160 ≤ kBufferCapacity - 0; decide)
      stubDsp_reportsSuccess⟩

end WorkerProperties

/-! ## The completion callback -/

section Completion

variable {A Ns : Type}

theorem dropInput_zero (c : Channel A Ns) : c.dropInput 0 = c := rfl

theorem dropInput_dropInput (c : Channel A Ns) (a b : Nat) :
    (c.dropInput a).dropInput b = c.dropInput (a + b) := by
  simp only [Channel.dropInput, List.drop_drop]

theorem dropFrames_zero (u : Unit A Ns) (n : Nat) : u.dropFrames n 0 = u := by
  unfold Unit.dropFrames
  simp only [Nat.mul_zero, dropInput_zero, ite_self]

theorem dropFrames_succ (u : Unit A Ns) (n k : Nat) :
    (u.dropFrames n 1).dropFrames n k = u.dropFrames n (k + 1) := by
  unfold Unit.dropFrames
  congr 1
  funext i
  by_cases h : i.val < n
  · simp only [h, if_true, dropInput_dropInput]
    congr 1
    omega
  · simp only [h, if_false]

/-- One iteration of the inner loop on a channel whose `io_.in` holds a full frame. -/
theorem AsyncCb_body_frame (i : Nat) (h : i < 2) (s : Unit A Ns × List Delivery)
    (hf : 160 ≤ (s.1.channels_ ⟨i, h⟩).io_in.data.length) :
    AsyncCb_body i s =
      .ok (s.1.setChannel ⟨i, h⟩ ((s.1.channels_ ⟨i, h⟩).dropInput 160),
           s.2 ++ [{ channel := i, samples := (s.1.channels_ ⟨i, h⟩).io_in.data.take 160 }]) := by
  have hm : min 160 (s.1.channels_ ⟨i, h⟩).io_in.data.length = 160 := by omega
  unfold AsyncCb_body
  rw [dif_pos h]
  simp only [PaUtil_ReadRingBuffer, PaUtil_GetRingBufferReadAvailable, kChunkSize, hm,
    List.length_take, if_true, Channel.dropInput]

/-- One iteration of the inner loop on a channel whose `io_.in` holds less than a frame:
the read drains the ring and the assertion on the count aborts, with no delivery. -/
theorem AsyncCb_body_short (i : Nat) (h : i < 2) (s : Unit A Ns × List Delivery)
    (hf : (s.1.channels_ ⟨i, h⟩).io_in.data.length < 160) :
    AsyncCb_body i s =
      .abort "Read less than expected"
        (s.1.setChannel ⟨i, h⟩
          { s.1.channels_ ⟨i, h⟩ with
            io_in := { (s.1.channels_ ⟨i, h⟩).io_in with data := [] } }, s.2) := by
  have hm : min 160 (s.1.channels_ ⟨i, h⟩).io_in.data.length =
      (s.1.channels_ ⟨i, h⟩).io_in.data.length := by omega
  have hne : ¬ (s.1.channels_ ⟨i, h⟩).io_in.data.length = 160 := by omega
  unfold AsyncCb_body
  rw [dif_pos h]
  simp only [PaUtil_ReadRingBuffer, PaUtil_GetRingBufferReadAvailable, kChunkSize, hm,
    List.length_take, min_self, hne, if_false, List.drop_length]

theorem AsyncCb_body_zero (u : Unit A Ns) (log : List Delivery)
    (hf : 160 ≤ (u.channels_ 0).io_in.data.length) :
    AsyncCb_body 0 (u, log) =
      .ok (u.setChannel 0 ((u.channels_ 0).dropInput 160),
           log ++ [{ channel := 0, samples := (u.channels_ 0).io_in.data.take 160 }]) :=
  AsyncCb_body_frame 0 (by decide) (u, log) hf

theorem AsyncCb_body_one (u : Unit A Ns) (log : List Delivery)
    (hf : 160 ≤ (u.channels_ 1).io_in.data.length) :
    AsyncCb_body 1 (u, log) =
      .ok (u.setChannel 1 ((u.channels_ 1).dropInput 160),
           log ++ [{ channel := 1, samples := (u.channels_ 1).io_in.data.take 160 }]) :=
  AsyncCb_body_frame 1 (by decide) (u, log) hf

theorem roundDeliveries_one (u : Unit A Ns) (j : Nat) :
    roundDeliveries u 1 j =
      [{ channel := 0, samples := ((u.channels_ 0).io_in.data.drop (160 * j)).take 160 }] :=
  rfl

theorem roundDeliveries_two (u : Unit A Ns) (j : Nat) :
    roundDeliveries u 2 j =
      [{ channel := 0, samples := ((u.channels_ 0).io_in.data.drop (160 * j)).take 160 },
       { channel := 1, samples := ((u.channels_ 1).io_in.data.drop (160 * j)).take 160 }] :=
  rfl

theorem dropFrames_channel (u : Unit A Ns) (n j : Nat) (i : Fin 2) (h : i.val < n) :
    (u.dropFrames n j).channels_ i = (u.channels_ i).dropInput (160 * j) := by
  simp only [Unit.dropFrames, h, if_true]

/-- One round of the inner loop when every channel below `n` holds a full frame. -/
theorem AsyncCb_for_round (u : Unit A Ns) (log : List Delivery) (n : Nat)
    (h12 : n = 1 ∨ n = 2)
    (hf : ∀ i : Fin 2, i.val < n → 160 ≤ (u.channels_ i).io_in.data.length) :
    AsyncCb_for n n (u, log) = .ok (u.dropFrames n 1, log ++ roundDeliveries u n 0) := by
  cases h12 with
  | inl h =>
    subst h
    have e0 := AsyncCb_body_zero u log (hf 0 (by decide))
    have hu : u.setChannel 0 ((u.channels_ 0).dropInput 160) = u.dropFrames 1 1 := by
      unfold Unit.setChannel Unit.dropFrames
      congr 1
      funext i
      have hi : i = 0 ∨ i = 1 := by omega
      cases hi with
      | inl h => subst h; simp
      | inr h => subst h; simp
    show (AsyncCb_body 0 (u, log)).bind (AsyncCb_for 1 0) = _
    rw [e0, roundDeliveries_one, ← hu]
    rfl
  | inr h =>
    subst h
    have e0 := AsyncCb_body_zero u log (hf 0 (by decide))
    have h1 : ((u.setChannel 0 ((u.channels_ 0).dropInput 160)).channels_ 1) = u.channels_ 1 :=
      setChannel_other u 0 1 _ (by decide)
    have e1 := AsyncCb_body_one (u.setChannel 0 ((u.channels_ 0).dropInput 160))
      (log ++ [{ channel := 0, samples := (u.channels_ 0).io_in.data.take 160 }])
      (by rw [h1]; exact hf 1 (by decide))
    rw [h1] at e1
    have hu : (u.setChannel 0 ((u.channels_ 0).dropInput 160)).setChannel 1
        ((u.channels_ 1).dropInput 160) = u.dropFrames 2 1 := by
      unfold Unit.setChannel Unit.dropFrames
      congr 1
      funext i
      have hi : i = 0 ∨ i = 1 := by omega
      cases hi with
      | inl h => subst h; simp
      | inr h => subst h; simp
    show (AsyncCb_body 0 (u, log)).bind
      (fun s => (AsyncCb_body 1 s).bind (AsyncCb_for 2 0)) = _
    rw [e0]
    simp only [Outcome.bind]
    rw [e1, roundDeliveries_two, ← hu, List.append_assoc]
    rfl

theorem roundDeliveries_dropFrames (u : Unit A Ns) (n j : Nat) (h12 : n = 1 ∨ n = 2) :
    roundDeliveries (u.dropFrames n 1) n j = roundDeliveries u n (j + 1) := by
  have e : ∀ l : List Int, List.drop (160 * j) (List.drop (160 * 1) l) =
      List.drop (160 * (j + 1)) l := by
    intro l
    rw [List.drop_drop]
    congr 1
    omega
  cases h12 with
  | inl h =>
    subst h
    rw [roundDeliveries_one, roundDeliveries_one, dropFrames_channel u 1 1 0 (by decide)]
    simp only [Channel.dropInput, e]
  | inr h =>
    subst h
    rw [roundDeliveries_two, roundDeliveries_two, dropFrames_channel u 2 1 0 (by decide),
      dropFrames_channel u 2 1 1 (by decide)]
    simp only [Channel.dropInput, e]

theorem expectedDeliveries_succ (u : Unit A Ns) (n k : Nat) (h12 : n = 1 ∨ n = 2) :
    expectedDeliveries u n (k + 1) =
      roundDeliveries u n 0 ++ expectedDeliveries (u.dropFrames n 1) n k := by
  unfold expectedDeliveries
  rw [List.range_succ_eq_map, List.map_cons, List.flatten_cons, List.map_map]
  congr 2
  apply List.map_congr_left
  intro j _
  exact (roundDeliveries_dropFrames u n j h12).symm

/-- The outer loop on a unit whose channels below `n` each hold exactly `k` frames: with
at least `k` rounds of fuel it returns after `k` rounds. -/
theorem AsyncCb_while_frames (n : Nat) (last : Fin 2) (h12 : n = 1 ∨ n = 2)
    (hlast : last.val < n) (k : Nat) :
    ∀ (fuel : Nat) (u : Unit A Ns) (log : List Delivery), k ≤ fuel →
      (∀ i : Fin 2, i.val < n → (u.channels_ i).io_in.data.length = 160 * k) →
      AsyncCb_while n last fuel (u, log) =
        .ok (u.dropFrames n k, log ++ expectedDeliveries u n k) := by
  induction k with
  | zero =>
    intro fuel u log _ hk
    have h0 : PaUtil_GetRingBufferReadAvailable (u.channels_ last).io_in = 0 := by
      simp only [PaUtil_GetRingBufferReadAvailable, hk last hlast]
    rw [dropFrames_zero]
    cases fuel with
    | zero => simp [AsyncCb_while, expectedDeliveries]
    | succ f => simp [AsyncCb_while, h0, expectedDeliveries]
  | succ k ih =>
    intro fuel u log hfuel hk
    cases fuel with
    | zero => omega
    | succ f =>
      have hpos : PaUtil_GetRingBufferReadAvailable (u.channels_ last).io_in > 0 := by
        simp only [PaUtil_GetRingBufferReadAvailable, hk last hlast]
        omega
      have hround := AsyncCb_for_round u log n h12
        (fun i hi => by rw [hk i hi]; omega)
      have hk1 : ∀ i : Fin 2, i.val < n →
          ((u.dropFrames n 1).channels_ i).io_in.data.length = 160 * k := by
        intro i hi
        simp only [Unit.dropFrames, hi, if_true, Channel.dropInput, List.length_drop, hk i hi]
        omega
      have := ih f (u.dropFrames n 1) (log ++ roundDeliveries u n 0) (by omega) hk1
      show (if PaUtil_GetRingBufferReadAvailable (u.channels_ last).io_in > 0 then
          (AsyncCb_for n n (u, log)).bind (AsyncCb_while n last f) else .ok (u, log)) = _
      rw [if_pos hpos, hround]
      show AsyncCb_while n last f (u.dropFrames n 1, log ++ roundDeliveries u n 0) = _
      rw [this, dropFrames_succ, expectedDeliveries_succ u n k h12, List.append_assoc]

/-- An iteration of the inner loop that returns has removed a full frame from its channel. -/
theorem AsyncCb_body_ok (i : Nat) (s s1 : Unit A Ns × List Delivery)
    (h : AsyncCb_body i s = .ok s1) :
    ∃ hi : i < 2, 160 ≤ (s.1.channels_ ⟨i, hi⟩).io_in.data.length ∧
      s1.1 = s.1.setChannel ⟨i, hi⟩ ((s.1.channels_ ⟨i, hi⟩).dropInput 160) := by
  by_cases hi : i < 2
  · by_cases hlen : 160 ≤ (s.1.channels_ ⟨i, hi⟩).io_in.data.length
    · rw [AsyncCb_body_frame i hi s hlen] at h
      injection h with h
      exact ⟨hi, hlen, by rw [← h]⟩
    · rw [AsyncCb_body_short i hi s (by omega)] at h
      cases h
  · unfold AsyncCb_body at h
    rw [dif_neg hi] at h
    cases h

/-- A round of the inner loop that returns has removed a full frame from the last
channel. -/
theorem AsyncCb_for_ok (n : Nat) (last : Fin 2) (hl : lastChannel n = some last)
    (s s1 : Unit A Ns × List Delivery) (h : AsyncCb_for n n s = .ok s1) :
    (s1.1.channels_ last).io_in.data.length + 160 = (s.1.channels_ last).io_in.data.length := by
  match n, hl with
  | 1, hl =>
    injection hl with hl
    subst hl
    have h0 : (AsyncCb_body 0 s).bind (AsyncCb_for 1 0) = .ok s1 := h
    cases hb : AsyncCb_body 0 s with
    | ok s2 =>
      rw [hb] at h0
      obtain ⟨hi, hlen, e⟩ := AsyncCb_body_ok 0 s s2 hb
      have hlen0 : 160 ≤ (s.1.channels_ 0).io_in.data.length := hlen
      have e0 : s2.1 = s.1.setChannel 0 ((s.1.channels_ 0).dropInput 160) := e
      have e2 : s2 = s1 := by
        simp only [Outcome.bind, AsyncCb_for] at h0
        injection h0
      rw [← e2, e0, setChannel_same]
      simp only [Channel.dropInput, List.length_drop]
      omega
    | abort m s2 => rw [hb] at h0; cases h0
    | undefined s2 => rw [hb] at h0; cases h0
  | 2, hl =>
    injection hl with hl
    subst hl
    have h0 : (AsyncCb_body 0 s).bind (fun t => (AsyncCb_body 1 t).bind (AsyncCb_for 2 0)) =
        .ok s1 := h
    cases hb : AsyncCb_body 0 s with
    | ok s2 =>
      rw [hb] at h0
      simp only [Outcome.bind] at h0
      obtain ⟨_, _, e0⟩ := AsyncCb_body_ok 0 s s2 hb
      have e : s2.1 = s.1.setChannel 0 ((s.1.channels_ 0).dropInput 160) := e0
      cases hc : AsyncCb_body 1 s2 with
      | ok s3 =>
        rw [hc] at h0
        obtain ⟨_, hlen, e30⟩ := AsyncCb_body_ok 1 s2 s3 hc
        have e3 : s3.1 = s2.1.setChannel 1 ((s2.1.channels_ 1).dropInput 160) := e30
        have e4 : s3 = s1 := by
          simp only [AsyncCb_for] at h0
          injection h0
        have h1 : s2.1.channels_ 1 = s.1.channels_ 1 := by
          rw [e]
          exact setChannel_other s.1 0 1 _ (by decide)
        have hlen1 : 160 ≤ (s2.1.channels_ 1).io_in.data.length := hlen
        rw [← e4, e3]
        show ((s2.1.setChannel 1 ((s2.1.channels_ 1).dropInput 160)).channels_ 1).io_in.data.length
          + 160 = _
        rw [setChannel_same, ← h1]
        simp only [Channel.dropInput, List.length_drop]
        omega
      | abort m s3 => rw [hc] at h0; cases h0
      | undefined s3 => rw [hc] at h0; cases h0
    | abort m s2 => rw [hb] at h0; cases h0
    | undefined s2 => rw [hb] at h0; cases h0

/-- The fuel given to the outer loop by `AsyncCb` is enough: a run that starts with at
least as much fuel as there are samples in the last channel and returns has left that
ring empty, so it stopped on the loop condition and not for lack of fuel. -/
theorem AsyncCb_while_drains (n : Nat) (last : Fin 2) (hl : lastChannel n = some last) :
    ∀ (fuel : Nat) (s s1 : Unit A Ns × List Delivery),
      (s.1.channels_ last).io_in.data.length ≤ fuel →
      AsyncCb_while n last fuel s = .ok s1 →
      (s1.1.channels_ last).io_in.data.length = 0 := by
  intro fuel
  induction fuel with
  | zero =>
    intro s s1 hlen h
    have e : s = s1 := by
      simp only [AsyncCb_while] at h
      injection h
    rw [← e]
    omega
  | succ f ih =>
    intro s s1 hlen h
    by_cases hpos : PaUtil_GetRingBufferReadAvailable (s.1.channels_ last).io_in > 0
    · have h0 : (AsyncCb_for n n s).bind (AsyncCb_while n last f) = .ok s1 := by
        simp only [AsyncCb_while, hpos, if_true] at h
        exact h
      cases hr : AsyncCb_for n n s with
      | ok s2 =>
        rw [hr] at h0
        have := AsyncCb_for_ok n last hl s s2 hr
        exact ih s2 s1 (by omega) h0
      | abort m s2 => rw [hr] at h0; cases h0
      | undefined s2 => rw [hr] at h0; cases h0
    · have e : s = s1 := by
        simp only [AsyncCb_while, hpos, if_false] at h
        injection h
      rw [← e]
      simp only [PaUtil_GetRingBufferReadAvailable] at hpos
      omega

end Completion

section CompletionProperties

variable {A Ns : Type}

theorem flatten_getElem?_uniform {α : Type} (n : Nat) (L : List (List α))
    (hL : ∀ l ∈ L, l.length = n) (j i : Nat) (hi : i < n) :
    L.flatten[j * n + i]? = (L[j]?).bind (fun l => l[i]?) := by
  induction L generalizing j with
  | nil => simp
  | cons l ls ih =>
    have hl : l.length = n := hL l (List.mem_cons_self _ _)
    rw [List.flatten_cons]
    cases j with
    | zero =>
      rw [Nat.zero_mul, Nat.zero_add, List.getElem?_append_left (by omega)]
      simp
    | succ j =>
      rw [List.getElem?_append_right (by rw [hl, Nat.succ_mul]; omega)]
      have e : (j + 1) * n + i - l.length = j * n + i := by
        rw [hl, Nat.succ_mul]
        omega
      rw [e, ih (fun l1 h1 => hL l1 (List.mem_cons_of_mem _ h1))]
      simp

theorem expectedDeliveries_length (u : Unit A Ns) (n k : Nat) :
    (expectedDeliveries u n k).length = k * n := by
  unfold expectedDeliveries
  rw [List.length_flatten, List.map_map]
  have : (List.length ∘ roundDeliveries u n) = fun _ => n := by
    funext j
    simp [roundDeliveries]
  rw [this]
  simp

theorem expectedDeliveries_getElem? (u : Unit A Ns) (n k j i : Nat) (hj : j < k) (hi : i < n) :
    (expectedDeliveries u n k)[j * n + i]? =
      some { channel := i,
             samples := ((u.channels_ (Fin.ofNat i)).io_in.data.drop (160 * j)).take 160 } := by
  unfold expectedDeliveries
  rw [flatten_getElem?_uniform n _ (by
    intro l hl
    obtain ⟨j1, -, rfl⟩ := List.mem_map.mp hl
    simp [roundDeliveries]) j i hi]
  simp [List.getElem?_map, List.getElem?_range, hj, roundDeliveries, hi]

/-- The outer loop for one input channel whose `io_.in` holds `k` frames and a remainder of
`r` samples, `0 < r < 160`: after `k` rounds the next round aborts on the short read. -/
theorem AsyncCb_while_remainder (r : Nat) (hr0 : 0 < r) (hr : r < 160) (k : Nat) :
    ∀ (fuel : Nat) (u : Unit A Ns) (log : List Delivery), k < fuel →
      (u.channels_ 0).io_in.data.length = 160 * k + r →
      AsyncCb_while 1 0 fuel (u, log) =
        .abort "Read less than expected"
          ((u.dropFrames 1 k).setChannel 0
            { (u.dropFrames 1 k).channels_ 0 with
              io_in := { ((u.dropFrames 1 k).channels_ 0).io_in with data := [] } },
           log ++ expectedDeliveries u 1 k) := by
  induction k with
  | zero =>
    intro fuel u log hfuel hk
    cases fuel with
    | zero => omega
    | succ f =>
      have hpos : PaUtil_GetRingBufferReadAvailable (u.channels_ 0).io_in > 0 := by
        simp only [PaUtil_GetRingBufferReadAvailable, hk]
        omega
      have hb := AsyncCb_body_short 0 (by decide) (u, log)
        (by show (u.channels_ 0).io_in.data.length < 160; omega)
      show (if PaUtil_GetRingBufferReadAvailable (u.channels_ 0).io_in > 0 then
          ((AsyncCb_body 0 (u, log)).bind (AsyncCb_for 1 0)).bind (AsyncCb_while 1 0 f)
          else .ok (u, log)) = _
      rw [if_pos hpos, hb, dropFrames_zero]
      simp [Outcome.bind, expectedDeliveries]
  | succ k ih =>
    intro fuel u log hfuel hk
    cases fuel with
    | zero => omega
    | succ f =>
      have hpos : PaUtil_GetRingBufferReadAvailable (u.channels_ 0).io_in > 0 := by
        simp only [PaUtil_GetRingBufferReadAvailable, hk]
        omega
      have hround := AsyncCb_for_round u log 1 (Or.inl rfl)
        (fun i hi => by
          have : i = 0 := by omega
          subst this
          omega)
      have hk1 : ((u.dropFrames 1 1).channels_ 0).io_in.data.length = 160 * k + r := by
        simp only [Unit.dropFrames, Channel.dropInput, List.length_drop, hk]
        simp
        omega
      have := ih f (u.dropFrames 1 1) (log ++ roundDeliveries u 1 0) (by omega) hk1
      show (if PaUtil_GetRingBufferReadAvailable (u.channels_ 0).io_in > 0 then
          (AsyncCb_for 1 1 (u, log)).bind (AsyncCb_while 1 0 f) else .ok (u, log)) = _
      rw [if_pos hpos, hround]
      show AsyncCb_while 1 0 f (u.dropFrames 1 1, log ++ roundDeliveries u 1 0) = _
      rw [this, dropFrames_succ, expectedDeliveries_succ u 1 k (Or.inl rfl), List.append_assoc]

/-- C5: when the hardware reports `n` input channels, `n` being 1 or 2, and `io_.in` of each
channel below `n` holds exactly `k` frames, `AsyncCb` returns normally after exactly `k * n`
deliveries; delivery number `j * n + i` (round `j < k`, channel `i < n`) carries channel
index `i` and the `j`-th unread frame of that channel, so the order is channel-ascending
within a frame and frames in arrival order, each frame once; afterwards `io_.in` of every
channel below `n` is empty and nothing else has changed. -/
theorem AsyncCb_delivers_every_frame_in_order (hw : Hardware) (u : Unit A Ns) (n k : Nat)
    (hn : hw.GetChannelCount Side.kInput = n) (h12 : n = 1 ∨ n = 2)
    (hk : ∀ i : Fin 2, i.val < n → (u.channels_ i).io_in.data.length = 160 * k) :
    u.AsyncCb hw 0 = .ok (u.dropFrames n k, expectedDeliveries u n k) ∧
    (expectedDeliveries u n k).length = k * n ∧
    (∀ j i, j < k → i < n →
      (expectedDeliveries u n k)[j * n + i]? =
        some { channel := i,
               samples := ((u.channels_ (Fin.ofNat i)).io_in.data.drop (160 * j)).take 160 }) ∧
    (∀ i : Fin 2, i.val < n → ((u.dropFrames n k).channels_ i).io_in.data = []) ∧
    (∀ i : Fin 2, ¬ i.val < n → (u.dropFrames n k).channels_ i = u.channels_ i) := by
  have hlast : ∃ last : Fin 2, lastChannel n = some last ∧ last.val < n := by
    cases h12 with
    | inl h => exact ⟨0, by rw [h]; exact lastChannel_one, by rw [h]; decide⟩
    | inr h => exact ⟨1, by rw [h]; exact lastChannel_two, by rw [h]; decide⟩
  obtain ⟨last, hl, hlt⟩ := hlast
  refine ⟨?_, expectedDeliveries_length u n k,
    fun j i hj hi => expectedDeliveries_getElem? u n k j i hj hi, ?_, ?_⟩
  · unfold Unit.AsyncCb
    rw [if_neg (by decide), hn]
    simp only [hl]
    have := AsyncCb_while_frames n last h12 hlt k
      (PaUtil_GetRingBufferReadAvailable (u.channels_ last).io_in) u []
      (by simp only [PaUtil_GetRingBufferReadAvailable, hk last hlt]; omega) hk
    rw [this, List.nil_append]
  · intro i hi
    simp only [Unit.dropFrames, hi, if_true, Channel.dropInput]
    apply List.drop_of_length_le
    rw [hk i hi]
  · intro i hi
    simp only [Unit.dropFrames, hi, if_false]

theorem stereoUnit_frames (i : Fin 2) (_ : i.val < 2) :
    (stereoUnit.channels_ i).io_in.data.length = 160 * 1 := by
  have hi : i = 0 ∨ i = 1 := by omega
  cases hi with
  | inl h => subst h; exact List.length_replicate 160 (1 : Int)
  | inr h => subst h; exact List.length_replicate 160 (2 : Int)

theorem AsyncCb_delivers_every_frame_in_order_witness :
    stereoUnit.AsyncCb (hwChannels 2 2) 0 =
      .ok (stereoUnit.dropFrames 2 1, expectedDeliveries stereoUnit 2 1) :=
  (AsyncCb_delivers_every_frame_in_order (hwChannels 2 2) stereoUnit 2 1 rfl (Or.inr rfl)
    stereoUnit_frames).1

theorem AsyncCb_one_channel (hw : Hardware) (u : Unit A Ns)
    (hn : hw.GetChannelCount Side.kInput = 1) :
    u.AsyncCb hw 0 = AsyncCb_while 1 0 (u.channels_ 0).io_in.data.length (u, []) := by
  unfold Unit.AsyncCb
  rw [if_neg (by decide), hn]
  rfl

theorem unit_eq_of_fields (u v : Unit A Ns) (h : ∀ i, u.channels_ i = v.channels_ i)
    (hr : u.running_ = v.running_) (hd : u.destroying_ = v.destroying_)
    (hs : u.aec_sem_ = v.aec_sem_) (ha : u.aec_async_ = v.aec_async_) : u = v := by
  cases u
  cases v
  simp only [Unit.mk.injEq]
  exact ⟨funext h, hr, hd, hs, ha⟩

theorem shortUnit_drained :
    shortUnit.setChannel 0
      { shortUnit.channels_ 0 with
        io_in := { (shortUnit.channels_ 0).io_in with data := [] } } = idleUnit := by
  refine unit_eq_of_fields _ _ ?_ rfl rfl rfl rfl
  intro i
  have hi : i = 0 ∨ i = 1 := by omega
  cases hi with
  | inl h =>
    subst h
    rw [setChannel_same]
    rfl
  | inr h =>
    subst h
    rw [setChannel_other _ 0 1 _ (by decide)]
    exact setChannel_other idleUnit 0 1 _ (by decide)

/-- C10 fails on the code: the loop of `AsyncCb` runs while the reference ring is non-empty,
not while it holds a full frame. Entered with 64 samples in `io_.in` of the only input
channel it makes no delivery, drains those samples and aborts on the "Read less than
expected" assertion; entered with a full ring of 16384 = 102 * 160 + 64 samples it makes
102 deliveries and then aborts the same way. -/
theorem AsyncCb_aborts_on_short_frame :
    (shortUnit.channels_ 0).io_in.data.length = 64 ∧
    shortUnit.AsyncCb (hwChannels 1 1) 0 =
      .abort "Read less than expected" (idleUnit, []) ∧
    (fullInputUnit.channels_ 0).io_in.data.length = 16384 ∧
    (∃ s, fullInputUnit.AsyncCb (hwChannels 1 1) 0 = .abort "Read less than expected" s ∧
      s.2.length = 102 ∧ (s.1.channels_ 0).io_in.data = []) := by
  have h64 : (shortUnit.channels_ 0).io_in.data.length = 160 * 0 + 64 :=
    List.length_replicate 64 (0 : Int)
  have hfull : (fullInputUnit.channels_ 0).io_in.data.length = 160 * 102 + 64 :=
    List.length_replicate 16384 (0 : Int)
  refine ⟨h64, ?_, hfull, ?_⟩
  · have := AsyncCb_while_remainder 64 (by decide) (by decide) 0 (160 * 0 + 64) shortUnit []
      (by decide) h64
    rw [AsyncCb_one_channel (hwChannels 1 1) shortUnit rfl, h64, this, dropFrames_zero,
      shortUnit_drained]
    rfl
  · have := AsyncCb_while_remainder 64 (by decide) (by decide) 102 (160 * 102 + 64)
      fullInputUnit [] (by decide) hfull
    rw [AsyncCb_one_channel (hwChannels 1 1) fullInputUnit rfl, hfull, this]
    refine ⟨_, rfl, ?_, ?_⟩
    · rw [List.nil_append, expectedDeliveries_length]
    · simp only [setChannel_same]

end CompletionProperties

end audio
